import Mathlib

/-!
Verification development for the task-tracker repository layer
(src/models/task.py, src/database/migrations.py, src/database/repository.py).

The store is modelled as a list of rows plus the AUTOINCREMENT counter.
SQLite's CURRENT_TIMESTAMP produces strings of the form "YYYY-MM-DD HH:MM:SS";
timestamps are therefore stored as strings and compared with the TEXT
(lexicographic) collation SQLite uses for DATETIME columns, while the two
Python parsing paths (datetime.fromisoformat and
datetime.strptime with format %Y-%m-%d %H:%M:%S) are modelled as explicit
string parsers.  Storage faults (sqlite3.Error) are modelled by a boolean
fault input to each operation.
-/

namespace Speckit

/-- The status enum: TaskStatus = Literal of pending, completed. -/
inductive TaskStatus where
  | pending
  | completed
deriving DecidableEq, Repr

/-- A calendar timestamp as Python's datetime carries it (to second
resolution, which is all SQLite's CURRENT_TIMESTAMP produces). -/
structure Datetime where
  year : Nat
  month : Nat
  day : Nat
  hour : Nat
  minute : Nat
  second : Nat
deriving DecidableEq, Repr

/-- Field bounds enforced by Python's datetime constructor (MINYEAR = 1,
MAXYEAR = 9999) and by strptime. -/
def Datetime.validB (d : Datetime) : Bool :=
  decide (1 ≤ d.year) && decide (d.year ≤ 9999) &&
  decide (1 ≤ d.month) && decide (d.month ≤ 12) &&
  decide (1 ≤ d.day) && decide (d.day ≤ 31) &&
  decide (d.hour ≤ 23) && decide (d.minute ≤ 59) && decide (d.second ≤ 59)

/-- The chronological value of a timestamp: lexicographic comparison of the
fields packed into one number (fields are < 100, the year < 10000). -/
def Datetime.val (d : Datetime) : Nat :=
  ((((d.year * 100 + d.month) * 100 + d.day) * 100 + d.hour) * 100 + d.minute) * 100 + d.second

/-- Two-digit zero-padded decimal rendering, as used by CURRENT_TIMESTAMP. -/
def pad2 (n : Nat) : List Char :=
  [Nat.digitChar (n / 10 % 10), Nat.digitChar (n % 10)]

/-- Four-digit zero-padded decimal rendering, as used by CURRENT_TIMESTAMP. -/
def pad4 (n : Nat) : List Char :=
  [Nat.digitChar (n / 1000 % 10), Nat.digitChar (n / 100 % 10),
   Nat.digitChar (n / 10 % 10), Nat.digitChar (n % 10)]

/-- The string SQLite's CURRENT_TIMESTAMP stores: "YYYY-MM-DD HH:MM:SS". -/
def fmtTs (d : Datetime) : String :=
  ⟨pad4 d.year ++ '-' :: (pad2 d.month ++ '-' :: (pad2 d.day ++ ' ' ::
    (pad2 d.hour ++ ':' :: (pad2 d.minute ++ ':' :: pad2 d.second))))⟩

/-- Value of one decimal digit character. -/
def d2 (c : Char) : Option Nat :=
  if c.isDigit then some (c.toNat - 48) else none

/-- Parse a two-digit field. -/
def parse2 (c1 c2 : Char) : Option Nat :=
  match d2 c1, d2 c2 with
  | some a, some b => some (10 * a + b)
  | _, _ => none

/-- Parse a four-digit field. -/
def parse4 (c1 c2 c3 c4 : Char) : Option Nat :=
  match d2 c1, d2 c2, d2 c3, d2 c4 with
  | some a, some b, some c, some d => some (1000 * a + 100 * b + 10 * c + d)
  | _, _, _, _ => none

/-- Core parser for the 19-character timestamp layout
"YYYY-MM-DD*HH:MM:SS" (any separator character at position 10, which is
what datetime.fromisoformat accepts there); returns the parsed fields and
the separator.  Field bounds are checked as Python's datetime constructor
does. -/
def parseTs19 : List Char → Option (Datetime × Char)
  | [y1, y2, y3, y4, g1, m1, m2, g2, a1, a2, sep, h1, h2, g3, i1, i2, g4, e1, e2] =>
    if g1 == '-' && g2 == '-' && g3 == ':' && g4 == ':' then
      match parse4 y1 y2 y3 y4, parse2 m1 m2, parse2 a1 a2,
            parse2 h1 h2, parse2 i1 i2, parse2 e1 e2 with
      | some y, some mo, some da, some h, some mi, some s =>
        if (Datetime.mk y mo da h mi s).validB then some (⟨y, mo, da, h, mi, s⟩, sep)
        else none
      | _, _, _, _, _, _ => none
    else none
  | _ => none

/-- Models datetime.fromisoformat on the timestamp strings arising in this
program (19-character datetime form; any single separator character). -/
def fromiso (s : String) : Option Datetime :=
  match parseTs19 s.data with
  | some (d, _) => some d
  | none => none

/-- Models datetime.strptime with format %Y-%m-%d %H:%M:%S: like
fromisoformat but the separator must be a space. -/
def strptimeYmdHms (s : String) : Option Datetime :=
  match parseTs19 s.data with
  | some (d, sep) => if sep == ' ' then some d else none
  | none => none

/-- Python's str.endswith applied to a single character 'Z'. -/
def endsWithZ (s : String) : Bool :=
  s.data.getLast? == some 'Z'

/-- Python's membership test: 'T' in s. -/
def containsT (s : String) : Bool :=
  s.data.contains 'T'

/-- The timestamp-parsing branch of SQLiteTaskRepository._row_to_task:
strings ending in Z are parsed with fromisoformat after dropping the Z,
strings containing T with fromisoformat, and everything else (SQLite's
CURRENT_TIMESTAMP form) with strptime %Y-%m-%d %H:%M:%S. -/
def parseDbTimestamp (s : String) : Option Datetime :=
  if endsWithZ s then fromiso ⟨s.data.dropLast⟩
  else if containsT s then fromiso s
  else strptimeYmdHms s

/-- The whitespace characters stripped by Python's str.strip(): the six
ASCII whitespace characters, the file/group/record/unit separators
U+001C - U+001F, NEL U+0085, NBSP U+00A0, OGHAM SPACE MARK U+1680, the
Zs spaces U+2000 - U+200A, LINE SEPARATOR U+2028, PARAGRAPH SEPARATOR
U+2029, NARROW NBSP U+202F, MATHEMATICAL SPACE U+205F and IDEOGRAPHIC
SPACE U+3000 (the characters for which Python's str.isspace holds). -/
def isWs (c : Char) : Bool :=
  c == ' ' || c == '\t' || c == '\n' || c == '\r' || c == '\x0b' || c == '\x0c' ||
  c == '\x1c' || c == '\x1d' || c == '\x1e' || c == '\x1f' ||
  c == '\x85' || c == '\xa0' || c == '\u1680' ||
  (decide ('\u2000' ≤ c) && decide (c ≤ '\u200A')) ||
  c == '\u2028' || c == '\u2029' || c == '\u202F' || c == '\u205F' || c == '\u3000'

/-- Python's str.strip(): remove leading and trailing whitespace. -/
def pyStrip (s : String) : String :=
  ⟨(((s.data.dropWhile isWs).reverse.dropWhile isWs).reverse)⟩

/-- The error taxonomy visible to repository callers: ValueError
(validation) versus RuntimeError wrapping a sqlite3.Error (storage). -/
inductive RepoError where
  | validation (msg : String)
  | storage (msg : String)
deriving DecidableEq, Repr

/-- The Task entity (src/models/task.py): a validated domain record. -/
structure Task where
  id : Option Nat
  description : String
  status : TaskStatus
  created_at : Datetime
  completed_at : Option Datetime
deriving DecidableEq, Repr

/-- Task construction including Task.__post_init__: reject empty or
whitespace-only descriptions, strip the description, and reject
status/completed_at combinations that break the completion invariant. -/
def mkTask (id : Option Nat) (description : String) (status : TaskStatus)
    (created_at : Datetime) (completed_at : Option Datetime) : Except RepoError Task :=
  if (pyStrip description).isEmpty then
    .error (.validation "Description cannot be empty")
  else if status == .pending && completed_at.isSome then
    .error (.validation "Pending tasks cannot have a completion timestamp")
  else if status == .completed && completed_at.isNone then
    .error (.validation "Completed tasks must have a completion timestamp")
  else
    .ok { id := id, description := pyStrip description, status := status,
          created_at := created_at, completed_at := completed_at }

/-- One row of the tasks table
(id INTEGER PRIMARY KEY AUTOINCREMENT, description TEXT, status TEXT,
created_at DATETIME, completed_at DATETIME). -/
structure TaskRow where
  id : Nat
  description : String
  status : TaskStatus
  created_at : String
  completed_at : Option String
deriving DecidableEq, Repr

/-- The CHECK constraints of the tasks table (src/database/migrations.py):
length(description) > 0, status in {pending, completed} (already enforced
by the enum type), and valid_completion:
(status = pending AND completed_at IS NULL) OR
(status = completed AND completed_at IS NOT NULL). -/
def rowCheck (r : TaskRow) : Bool :=
  decide (0 < r.description.length) &&
  (match r.status, r.completed_at with
   | .pending, none => true
   | .completed, some _ => true
   | _, _ => false)

/-- The persistent store: the rows of the tasks table in insertion order,
plus the next AUTOINCREMENT id (SQLite assigns ids starting at 1 and never
reuses an AUTOINCREMENT id). -/
structure Store where
  rows : List TaskRow
  nextId : Nat
deriving DecidableEq, Repr

/-- The empty store right after create_schema. -/
def Store.empty : Store := { rows := [], nextId := 1 }

/-- Raw SQL INSERT INTO tasks: the storage engine itself enforces the
CHECK constraints, so an insert that violates them fails (as a
sqlite3.IntegrityError, a storage-level error) and writes nothing. -/
def Store.sqlInsert (s : Store) (description : String) (status : TaskStatus)
    (created_at : String) (completed_at : Option String) :
    Except RepoError (Store × Nat) :=
  let r : TaskRow := { id := s.nextId, description := description, status := status,
                       created_at := created_at, completed_at := completed_at }
  if rowCheck r then
    .ok ({ rows := s.rows ++ [r], nextId := s.nextId + 1 }, s.nextId)
  else
    .error (.storage "CHECK constraint failed")

/-- Predicate of the conditional UPDATE in mark_completed:
WHERE id = ? AND status = 'pending'. -/
def matchPending (tid : Nat) (r : TaskRow) : Bool :=
  r.id == tid && r.status == .pending

/-- Raw SQL
UPDATE tasks SET status = completed, completed_at = now
WHERE id = tid AND status = pending;
returns the updated store and cursor.rowcount. -/
def Store.sqlUpdateCompleted (s : Store) (tid : Nat) (now : String) : Store × Nat :=
  ({ s with rows := s.rows.map (fun r =>
      if matchPending tid r then
        { r with status := .completed, completed_at := some now }
      else r) },
   (s.rows.filter (matchPending tid)).length)

/-- Raw SQL DELETE FROM tasks WHERE id = tid; returns the updated store
and cursor.rowcount. -/
def Store.sqlDelete (s : Store) (tid : Nat) : Store × Nat :=
  ({ s with rows := s.rows.filter (fun r => !(r.id == tid)) },
   (s.rows.filter (fun r => r.id == tid)).length)

/-- SQLiteTaskRepository._row_to_task: convert a database row to a Task,
parsing the two timestamp columns and running the Task validation.  A
parsing or validation failure is a ValueError, which the repository's
except sqlite3.Error clause does not catch. -/
def rowToTask (r : TaskRow) : Except RepoError Task :=
  match parseDbTimestamp r.created_at with
  | none => .error (.validation "time data does not match format")
  | some created =>
    match r.completed_at with
    | none => mkTask (some r.id) r.description r.status created none
    | some cs =>
      if cs.isEmpty then mkTask (some r.id) r.description r.status created none
      else
        match parseDbTimestamp cs with
        | none => .error (.validation "time data does not match format")
        | some completed => mkTask (some r.id) r.description r.status created (some completed)

/-- The list comprehension building Tasks from fetched rows; the first
conversion failure propagates. -/
def rowsToTasks : List TaskRow → Except RepoError (List Task)
  | [] => .ok []
  | r :: rs =>
    match rowToTask r with
    | .error e => .error e
    | .ok t =>
      match rowsToTasks rs with
      | .error e => .error e
      | .ok ts => .ok (t :: ts)

/-- ORDER BY created_at DESC: row a may precede row b.  SQLite compares
DATETIME text lexicographically; ties on created_at are returned in id
(rowid) descending order, the order of a backward scan of
idx_tasks_created_at, which is the engine's deterministic per-connection
choice. -/
def RowLE (a b : TaskRow) : Prop :=
  b.created_at < a.created_at ∨ (b.created_at = a.created_at ∧ b.id ≤ a.id)

instance : DecidableRel RowLE := fun _ _ =>
  inferInstanceAs (Decidable (_ ∨ _))

/-- ORDER BY completed_at DESC for the completed-tasks query; the rows it
sorts all have status completed, hence (by the CHECK constraint) a non-null
completed_at, so the NULL default never influences the order. -/
def RowLEc (a b : TaskRow) : Prop :=
  b.completed_at.getD "" < a.completed_at.getD "" ∨
    (b.completed_at.getD "" = a.completed_at.getD "" ∧ b.id ≤ a.id)

instance : DecidableRel RowLEc := fun _ _ =>
  inferInstanceAs (Decidable (_ ∨ _))

/-- SELECT ... FROM tasks ORDER BY created_at DESC. -/
def Store.selectAllRows (s : Store) : List TaskRow :=
  s.rows.insertionSort RowLE

/-- SELECT ... FROM tasks WHERE status = 'pending' ORDER BY created_at DESC. -/
def Store.selectPendingRows (s : Store) : List TaskRow :=
  (s.rows.filter (fun r => r.status == .pending)).insertionSort RowLE

/-- SELECT ... FROM tasks WHERE status = 'completed' ORDER BY completed_at DESC. -/
def Store.selectCompletedRows (s : Store) : List TaskRow :=
  (s.rows.filter (fun r => r.status == .completed)).insertionSort RowLEc

/-- SQLiteTaskRepository.create_task.  The description is validated before
any database operation (None or empty or whitespace-only raises
ValueError); then one row is inserted with status pending and
created_at = CURRENT_TIMESTAMP (the storage clock, parameter now), the row
is read back by its assigned id, the transaction commits, and the Task is
built from the read-back row with datetime.fromisoformat.  Any
sqlite3.Error (modelled by the fault flag) rolls the transaction back and
surfaces as a RuntimeError, leaving the store unchanged. -/
def create_task (s : Store) (description : Option String) (now : Datetime)
    (fault : Bool) : Store × Except RepoError Task :=
  match description with
  | none => (s, .error (.validation "Description cannot be empty"))
  | some d =>
    if d.isEmpty || (pyStrip d).isEmpty then
      (s, .error (.validation "Description cannot be empty"))
    else if fault then
      (s, .error (.storage "Failed to create task"))
    else
      match s.sqlInsert (pyStrip d) .pending (fmtTs now) none with
      | .error _ => (s, .error (.storage "Failed to create task"))
      | .ok (s1, task_id) =>
        match s1.rows.find? (fun r => r.id == task_id) with
        | none => (s1, .error (.storage "Failed to create task"))
        | some row =>
          match fromiso row.created_at with
          | none => (s1, .error (.validation "Invalid isoformat string"))
          | some created =>
            match mkTask (some row.id) row.description row.status created none with
            | .error e => (s1, .error e)
            | .ok t => (s1, .ok t)

/-- SQLiteTaskRepository.mark_completed: one conditional atomic UPDATE
matching id AND status = pending, setting status = completed and
completed_at = CURRENT_TIMESTAMP; returns cursor.rowcount == 1.  A
sqlite3.Error rolls back and surfaces as RuntimeError. -/
def mark_completed (s : Store) (task_id : Nat) (now : Datetime)
    (fault : Bool) : Store × Except RepoError Bool :=
  if fault then (s, .error (.storage "Failed to mark task completed"))
  else
    let p := s.sqlUpdateCompleted task_id (fmtTs now)
    (p.1, .ok (decide (p.2 = 1)))

/-- SQLiteTaskRepository.delete_task: one unconditional DELETE by id;
returns cursor.rowcount == 1.  A sqlite3.Error rolls back and surfaces as
RuntimeError. -/
def delete_task (s : Store) (task_id : Nat) (fault : Bool) :
    Store × Except RepoError Bool :=
  if fault then (s, .error (.storage "Failed to delete task"))
  else
    let p := s.sqlDelete task_id
    (p.1, .ok (decide (p.2 = 1)))

/-- SQLiteTaskRepository.get_all_tasks. -/
def get_all_tasks (s : Store) (fault : Bool) : Except RepoError (List Task) :=
  if fault then .error (.storage "Failed to retrieve all tasks")
  else rowsToTasks s.selectAllRows

/-- SQLiteTaskRepository.get_pending_tasks. -/
def get_pending_tasks (s : Store) (fault : Bool) : Except RepoError (List Task) :=
  if fault then .error (.storage "Failed to retrieve pending tasks")
  else rowsToTasks s.selectPendingRows

/-- SQLiteTaskRepository.get_completed_tasks. -/
def get_completed_tasks (s : Store) (fault : Bool) : Except RepoError (List Task) :=
  if fault then .error (.storage "Failed to retrieve completed tasks")
  else rowsToTasks s.selectCompletedRows

/-- SQLiteTaskRepository.get_task_by_id: SELECT by primary key,
fetchone, convert if found. -/
def get_task_by_id (s : Store) (task_id : Nat) (fault : Bool) :
    Except RepoError (Option Task) :=
  if fault then .error (.storage "Failed to retrieve task by ID")
  else
    match s.rows.find? (fun r => r.id == task_id) with
    | none => .ok none
    | some r =>
      match rowToTask r with
      | .error e => .error e
      | .ok t => .ok (some t)

/-- A stored timestamp string is well formed when it is exactly the
CURRENT_TIMESTAMP rendering of the datetime it parses to (every value the
storage clock ever writes has this shape). -/
def tsWF (s : String) : Bool :=
  match strptimeYmdHms s with
  | some d => s == fmtTs d
  | none => false

/-- Well-formedness of one stored row: id below the AUTOINCREMENT counter,
the CHECK constraints hold, both timestamps are CURRENT_TIMESTAMP values,
and the description is already stripped (create_task only ever inserts
stripped descriptions). -/
def rowWF (nextId : Nat) (r : TaskRow) : Bool :=
  decide (r.id < nextId) && rowCheck r && tsWF r.created_at &&
    r.completed_at.all tsWF && (pyStrip r.description == r.description)

/-- Well-formedness of the store: primary-key uniqueness plus row
well-formedness. -/
def Store.wf (s : Store) : Bool :=
  decide (s.rows.map (fun r => r.id)).Nodup && s.rows.all (rowWF s.nextId)

/-- The stores reachable from an empty schema through the repository's
mutating operations, with CURRENT_TIMESTAMP always producing a valid
datetime. -/
inductive Reachable : Store → Prop
  | init : Reachable Store.empty
  | create (s : Store) (description : Option String) (now : Datetime) (fault : Bool) :
      Reachable s → now.validB = true →
      Reachable (create_task s description now fault).1
  | mark (s : Store) (task_id : Nat) (now : Datetime) (fault : Bool) :
      Reachable s → now.validB = true →
      Reachable (mark_completed s task_id now fault).1
  | delete (s : Store) (task_id : Nat) (fault : Bool) :
      Reachable s → Reachable (delete_task s task_id fault).1

/-! ### Digit and timestamp format lemmas -/

theorem d2_digitChar (m : Nat) (h : m < 10) : d2 (Nat.digitChar m) = some m := by
  interval_cases m <;> decide

theorem digitChar_ne_T (m : Nat) (h : m < 10) : Nat.digitChar m ≠ 'T' := by
  interval_cases m <;> decide

theorem digitChar_ne_Z (m : Nat) (h : m < 10) : Nat.digitChar m ≠ 'Z' := by
  interval_cases m <;> decide

theorem parse2_pad (n : Nat) (h : n ≤ 99) :
    parse2 (Nat.digitChar (n / 10 % 10)) (Nat.digitChar (n % 10)) = some n := by
  unfold parse2
  rw [d2_digitChar (n / 10 % 10) (by omega), d2_digitChar (n % 10) (by omega)]
  exact congrArg some (by omega)

theorem parse4_pad (n : Nat) (h : n ≤ 9999) :
    parse4 (Nat.digitChar (n / 1000 % 10)) (Nat.digitChar (n / 100 % 10))
      (Nat.digitChar (n / 10 % 10)) (Nat.digitChar (n % 10)) = some n := by
  unfold parse4
  rw [d2_digitChar (n / 1000 % 10) (by omega), d2_digitChar (n / 100 % 10) (by omega),
      d2_digitChar (n / 10 % 10) (by omega), d2_digitChar (n % 10) (by omega)]
  exact congrArg some (by omega)

theorem fmtTs_data (d : Datetime) :
    (fmtTs d).data = pad4 d.year ++ '-' :: (pad2 d.month ++ '-' :: (pad2 d.day ++ ' ' ::
      (pad2 d.hour ++ ':' :: (pad2 d.minute ++ ':' :: pad2 d.second)))) := rfl

theorem parseTs19_fmt (d : Datetime) (h : d.validB = true) :
    parseTs19 (fmtTs d).data = some (d, ' ') := by
  obtain ⟨y, mo, da, hh, mi, ss⟩ := d
  have hb := h
  simp only [Datetime.validB, Bool.and_eq_true, decide_eq_true_eq] at h
  rw [fmtTs_data]
  simp only [pad4, pad2, List.cons_append, List.nil_append]
  simp only [parseTs19]
  rw [parse4_pad y (by omega), parse2_pad mo (by omega), parse2_pad da (by omega),
      parse2_pad hh (by omega), parse2_pad mi (by omega), parse2_pad ss (by omega)]
  simp [hb]

theorem strptime_fmt (d : Datetime) (h : d.validB = true) :
    strptimeYmdHms (fmtTs d) = some d := by
  unfold strptimeYmdHms
  rw [parseTs19_fmt d h]
  simp

theorem fromiso_fmt (d : Datetime) (h : d.validB = true) :
    fromiso (fmtTs d) = some d := by
  unfold fromiso
  rw [parseTs19_fmt d h]

theorem endsWithZ_fmt (d : Datetime) : endsWithZ (fmtTs d) = false := by
  unfold endsWithZ
  rw [fmtTs_data]
  simp only [pad4, pad2, List.cons_append, List.nil_append, List.getLast?]
  simp [digitChar_ne_Z (d.second % 10) (by omega)]

theorem containsT_fmt (d : Datetime) : containsT (fmtTs d) = false := by
  unfold containsT List.contains
  rw [fmtTs_data]
  simp only [pad4, pad2, List.cons_append, List.nil_append, List.elem_eq_mem,
    decide_eq_false_iff_not, List.mem_cons, List.not_mem_nil, or_false]
  intro hmem
  rcases hmem with h | h | h | h | h | h | h | h | h | h | h | h | h | h | h | h | h | h | h
  all_goals first
    | exact digitChar_ne_T _ (by omega) h.symm
    | exact absurd h (by decide)

theorem parseDbTimestamp_fmt (d : Datetime) (h : d.validB = true) :
    parseDbTimestamp (fmtTs d) = some d := by
  unfold parseDbTimestamp
  rw [endsWithZ_fmt, containsT_fmt]
  simp [strptime_fmt d h]

theorem tsWF_fmt (d : Datetime) (h : d.validB = true) : tsWF (fmtTs d) = true := by
  unfold tsWF
  rw [strptime_fmt d h]
  simp

theorem parseTs19_validB {cs : List Char} {d : Datetime} {sep : Char}
    (h : parseTs19 cs = some (d, sep)) : d.validB = true := by
  unfold parseTs19 at h
  split at h
  · split at h
    · split at h
      · split at h
        · simp only [Option.some.injEq, Prod.mk.injEq] at h
          obtain ⟨h1, -⟩ := h
          subst h1
          assumption
        · exact absurd h (by simp)
      · exact absurd h (by simp)
    · exact absurd h (by simp)
  · exact absurd h (by simp)

/-- Characterization of well-formed stored timestamps: exactly the
CURRENT_TIMESTAMP renderings of valid datetimes. -/
theorem tsWF_iff (s : String) :
    tsWF s = true ↔ ∃ d : Datetime, d.validB = true ∧ s = fmtTs d := by
  constructor
  · intro h
    unfold tsWF at h
    split at h
    · next d heq =>
      refine ⟨d, ?_, by simpa using h⟩
      unfold strptimeYmdHms at heq
      split at heq
      · next d1 sep hp =>
        split at heq
        · simp only [Option.some.injEq] at heq
          subst heq
          exact parseTs19_validB hp
        · exact absurd heq (by simp)
      · exact absurd heq (by simp)
    · exact absurd h (by simp)
  · rintro ⟨d, hv, rfl⟩
    exact tsWF_fmt d hv

theorem tsWF_parseDb {s : String} (h : tsWF s = true) :
    ∃ d : Datetime, d.validB = true ∧ s = fmtTs d ∧ parseDbTimestamp s = some d ∧
      fromiso s = some d ∧ strptimeYmdHms s = some d := by
  obtain ⟨d, hv, rfl⟩ := (tsWF_iff s).mp h
  exact ⟨d, hv, rfl, parseDbTimestamp_fmt d hv, fromiso_fmt d hv, strptime_fmt d hv⟩

theorem fmtTs_ne_empty (d : Datetime) : (fmtTs d).isEmpty = false := by
  cases hEmpty : (fmtTs d).isEmpty
  · rfl
  · exfalso
    have h2 := (String.isEmpty_iff _).mp hEmpty
    have h3 : (fmtTs d).data = [] := by rw [h2]
    rw [fmtTs_data] at h3
    simp [pad4] at h3

/-! ### Lexicographic order on CURRENT_TIMESTAMP strings versus
chronological order -/

theorem char_lex_cons_iff (a b : Char) (l m : List Char) :
    List.Lex (· < ·) (a :: l) (b :: m) ↔ a < b ∨ (a = b ∧ List.Lex (· < ·) l m) := by
  constructor
  · intro h
    cases h with
    | cons h => exact Or.inr ⟨rfl, h⟩
    | rel h => exact Or.inl h
  · intro h
    rcases h with h | ⟨rfl, h⟩
    · exact List.Lex.rel h
    · exact List.Lex.cons h

theorem digitChar_lt_iff (a b : Nat) (ha : a < 10) (hb : b < 10) :
    Nat.digitChar a < Nat.digitChar b ↔ a < b := by
  interval_cases a <;> interval_cases b <;> decide

theorem digitChar_inj_iff (a b : Nat) (ha : a < 10) (hb : b < 10) :
    Nat.digitChar a = Nat.digitChar b ↔ a = b := by
  interval_cases a <;> interval_cases b <;> decide

theorem lex_pad2_append (m n : Nat) (hm : m ≤ 99) (hn : n ≤ 99) (l l2 : List Char) :
    List.Lex (· < ·) (pad2 m ++ l) (pad2 n ++ l2) ↔
      m < n ∨ (m = n ∧ List.Lex (· < ·) l l2) := by
  simp only [pad2, List.cons_append, List.nil_append]
  rw [char_lex_cons_iff, char_lex_cons_iff,
      digitChar_lt_iff _ _ (by omega) (by omega), digitChar_inj_iff _ _ (by omega) (by omega),
      digitChar_lt_iff _ _ (by omega) (by omega), digitChar_inj_iff _ _ (by omega) (by omega)]
  constructor
  · rintro (h | ⟨h1, h2 | ⟨h2, h3⟩⟩)
    · exact Or.inl (by omega)
    · exact Or.inl (by omega)
    · exact Or.inr ⟨by omega, h3⟩
  · rintro (h | ⟨h1, h2⟩)
    · have hsplit : m / 10 % 10 < n / 10 % 10 ∨
          (m / 10 % 10 = n / 10 % 10 ∧ m % 10 < n % 10) := by omega
      rcases hsplit with h2 | ⟨h2, h3⟩
      · exact Or.inl h2
      · exact Or.inr ⟨h2, Or.inl h3⟩
    · exact Or.inr ⟨by omega, Or.inr ⟨by omega, h2⟩⟩

theorem digits4_lt_of_lt (m n : Nat) (hm : m ≤ 9999) (hn : n ≤ 9999)
    (q1 : m / 100 / 10 = m / 1000) (q2 : m / 10 / 10 = m / 100)
    (q3 : n / 100 / 10 = n / 1000) (q4 : n / 10 / 10 = n / 100)
    (h : m < n) :
    m / 1000 % 10 < n / 1000 % 10 ∨
      (m / 1000 % 10 = n / 1000 % 10 ∧ (m / 100 % 10 < n / 100 % 10 ∨
        (m / 100 % 10 = n / 100 % 10 ∧ (m / 10 % 10 < n / 10 % 10 ∨
          (m / 10 % 10 = n / 10 % 10 ∧ m % 10 < n % 10))))) := by
  have hm2 : m = 1000 * (m / 1000 % 10) + 100 * (m / 100 % 10) + 10 * (m / 10 % 10) + m % 10 := by
    omega
  have hn2 : n = 1000 * (n / 1000 % 10) + 100 * (n / 100 % 10) + 10 * (n / 10 % 10) + n % 10 := by
    omega
  have ha3 : m / 1000 % 10 ≤ 9 := by omega
  have ha2 : m / 100 % 10 ≤ 9 := by omega
  have ha1 : m / 10 % 10 ≤ 9 := by omega
  have ha0 : m % 10 ≤ 9 := by omega
  have hb3 : n / 1000 % 10 ≤ 9 := by omega
  have hb2 : n / 100 % 10 ≤ 9 := by omega
  have hb1 : n / 10 % 10 ≤ 9 := by omega
  have hb0 : n % 10 ≤ 9 := by omega
  generalize m / 1000 % 10 = a3 at *
  generalize m / 100 % 10 = a2 at *
  generalize m / 10 % 10 = a1 at *
  generalize m % 10 = a0 at *
  generalize n / 1000 % 10 = b3 at *
  generalize n / 100 % 10 = b2 at *
  generalize n / 10 % 10 = b1 at *
  generalize n % 10 = b0 at *
  omega

theorem lex_pad4_append (m n : Nat) (hm : m ≤ 9999) (hn : n ≤ 9999) (l l2 : List Char) :
    List.Lex (· < ·) (pad4 m ++ l) (pad4 n ++ l2) ↔
      m < n ∨ (m = n ∧ List.Lex (· < ·) l l2) := by
  simp only [pad4, List.cons_append, List.nil_append]
  rw [char_lex_cons_iff, char_lex_cons_iff, char_lex_cons_iff, char_lex_cons_iff,
      digitChar_lt_iff _ _ (by omega) (by omega), digitChar_inj_iff _ _ (by omega) (by omega),
      digitChar_lt_iff _ _ (by omega) (by omega), digitChar_inj_iff _ _ (by omega) (by omega),
      digitChar_lt_iff _ _ (by omega) (by omega), digitChar_inj_iff _ _ (by omega) (by omega),
      digitChar_lt_iff _ _ (by omega) (by omega), digitChar_inj_iff _ _ (by omega) (by omega)]
  have q1 : m / 100 / 10 = m / 1000 := by rw [Nat.div_div_eq_div_mul]
  have q2 : m / 10 / 10 = m / 100 := by rw [Nat.div_div_eq_div_mul]
  have q3 : n / 100 / 10 = n / 1000 := by rw [Nat.div_div_eq_div_mul]
  have q4 : n / 10 / 10 = n / 100 := by rw [Nat.div_div_eq_div_mul]
  constructor
  · rintro (h | ⟨h1, h | ⟨h2, h | ⟨h3, h | ⟨h4, h5⟩⟩⟩⟩)
    · exact Or.inl (by omega)
    · exact Or.inl (by omega)
    · exact Or.inl (by omega)
    · exact Or.inl (by omega)
    · exact Or.inr ⟨by omega, h5⟩
  · rintro (h | ⟨h1, h2⟩)
    · have hsplit := digits4_lt_of_lt m n hm hn q1 q2 q3 q4 h
      rcases hsplit with h2 | ⟨h2, h3 | ⟨h3, h4 | ⟨h4, h5⟩⟩⟩
      · exact Or.inl h2
      · exact Or.inr ⟨h2, Or.inl h3⟩
      · exact Or.inr ⟨h2, Or.inr ⟨h3, Or.inl h4⟩⟩
      · exact Or.inr ⟨h2, Or.inr ⟨h3, Or.inr ⟨h4, Or.inl h5⟩⟩⟩
    · exact Or.inr ⟨by omega, Or.inr ⟨by omega, Or.inr ⟨by omega, Or.inr ⟨by omega, h2⟩⟩⟩⟩

theorem lex_same_cons_iff (a : Char) (l m : List Char) :
    List.Lex (· < ·) (a :: l) (a :: m) ↔ List.Lex (· < ·) l m := by
  rw [char_lex_cons_iff]
  simp [lt_irrefl]

theorem lex_fmt_iff (d e : Datetime) (hd : d.validB = true) (he : e.validB = true) :
    List.Lex (· < ·) (fmtTs d).data (fmtTs e).data ↔ d.val < e.val := by
  obtain ⟨y1, mo1, da1, hh1, mi1, s1⟩ := d
  obtain ⟨y2, mo2, da2, hh2, mi2, s2⟩ := e
  simp only [Datetime.validB, Bool.and_eq_true, decide_eq_true_eq] at hd he
  rw [fmtTs_data, fmtTs_data]
  dsimp only
  rw [lex_pad4_append y1 y2 (by omega) (by omega), lex_same_cons_iff,
      lex_pad2_append mo1 mo2 (by omega) (by omega), lex_same_cons_iff,
      lex_pad2_append da1 da2 (by omega) (by omega), lex_same_cons_iff,
      lex_pad2_append hh1 hh2 (by omega) (by omega), lex_same_cons_iff,
      lex_pad2_append mi1 mi2 (by omega) (by omega), lex_same_cons_iff,
      ← List.append_nil (pad2 s1), ← List.append_nil (pad2 s2),
      lex_pad2_append s1 s2 (by omega) (by omega)]
  simp only [List.Lex.not_nil_right, iff_false, and_false, or_false, Datetime.val]
  omega

theorem fmt_lt_iff (d e : Datetime) (hd : d.validB = true) (he : e.validB = true) :
    fmtTs d < fmtTs e ↔ d.val < e.val := by
  rw [String.lt_iff_toList_lt]
  exact lex_fmt_iff d e hd he

theorem fmt_inj (d e : Datetime) (hd : d.validB = true) (he : e.validB = true)
    (h : fmtTs d = fmtTs e) : d = e := by
  have h1 := strptime_fmt d hd
  rw [h, strptime_fmt e he] at h1
  exact (Option.some.injEq _ _).mp h1.symm

theorem val_inj (d e : Datetime) (hd : d.validB = true) (he : e.validB = true)
    (h : d.val = e.val) : d = e := by
  obtain ⟨y1, mo1, d1, h1, mi1, s1⟩ := d
  obtain ⟨y2, mo2, d2, h2, mi2, s2⟩ := e
  simp only [Datetime.validB, Bool.and_eq_true, decide_eq_true_eq] at hd he
  simp only [Datetime.val] at h
  simp only [Datetime.mk.injEq]
  omega

theorem fmt_le_iff (d e : Datetime) (hd : d.validB = true) (he : e.validB = true) :
    fmtTs d ≤ fmtTs e ↔ d.val ≤ e.val := by
  rw [le_iff_lt_or_eq, le_iff_lt_or_eq, fmt_lt_iff d e hd he]
  constructor
  · rintro (h | h)
    · exact Or.inl h
    · exact Or.inr (congrArg Datetime.val (fmt_inj d e hd he h))
  · rintro (h | h)
    · exact Or.inl h
    · exact Or.inr (congrArg fmtTs (val_inj d e hd he h))

/-! ### String stripping lemmas -/

theorem pyStrip_data (s : String) :
    (pyStrip s).data = List.rdropWhile isWs (s.data.dropWhile isWs) := rfl

theorem dropWhile_head_false {p : Char → Bool} {l t : List Char} {a : Char}
    (h : l.dropWhile p = a :: t) : p a = false := by
  have h2 := List.head?_dropWhile_not p l
  rw [h] at h2
  simpa using h2

theorem stripCore_dropWhile (l : List Char) :
    List.dropWhile isWs (List.rdropWhile isWs (List.dropWhile isWs l)) =
      List.rdropWhile isWs (List.dropWhile isWs l) := by
  cases hR : List.rdropWhile isWs (List.dropWhile isWs l) with
  | nil => rfl
  | cons a t2 =>
    have hpre : List.rdropWhile isWs (List.dropWhile isWs l) <+: List.dropWhile isWs l :=
      List.rdropWhile_prefix isWs (List.dropWhile isWs l)
    rw [hR] at hpre
    obtain ⟨t, ht⟩ := hpre
    have hM : List.dropWhile isWs l = a :: (t2 ++ t) := by rw [← ht]; rfl
    have hfa : isWs a = false := dropWhile_head_false hM
    rw [List.dropWhile_cons, hfa]
    simp

theorem pyStrip_idem (s : String) : pyStrip (pyStrip s) = pyStrip s := by
  have h : (pyStrip (pyStrip s)).data = (pyStrip s).data := by
    rw [pyStrip_data (pyStrip s), pyStrip_data s, stripCore_dropWhile,
        List.rdropWhile_idempotent]
  exact String.toList_inj.mp h

theorem pyStrip_empty : pyStrip "" = "" := rfl

theorem isEmpty_false_iff_length_pos (s : String) :
    s.isEmpty = false ↔ 0 < s.length := by
  constructor
  · intro h
    rcases Nat.eq_zero_or_pos s.length with h0 | hp
    · exfalso
      have hd : s.data = [] := List.length_eq_zero.mp h0
      have hs : s = "" := String.toList_inj.mp (by rw [show s.toList = s.data from rfl, hd]; rfl)
      rw [hs] at h
      exact absurd h (by decide)
    · exact hp
  · intro h
    cases he : s.isEmpty
    · rfl
    · exfalso
      have hs : s = "" := (String.isEmpty_iff s).mp he
      rw [hs] at h
      exact absurd h (by decide)

theorem pyStrip_of_empty (s : String) (h : s.isEmpty = true) :
    (pyStrip s).isEmpty = true := by
  have hs : s = "" := (String.isEmpty_iff s).mp h
  rw [hs, pyStrip_empty]
  decide

/-! ### List helper lemmas -/

theorem filter_eq_singleton_of_nodup (l : List TaskRow)
    (hn : (l.map fun r => r.id).Nodup) (r : TaskRow) (hr : r ∈ l)
    (q : TaskRow → Bool) (hq : q r = true)
    (hid : ∀ x, q x = true → x.id = r.id) :
    l.filter q = [r] := by
  induction l with
  | nil => cases hr
  | cons a t ih =>
    rw [List.map_cons, List.nodup_cons] at hn
    obtain ⟨hna, hnt⟩ := hn
    rcases List.mem_cons.mp hr with rfl | hrt
    · rw [List.filter_cons_of_pos hq]
      have ht : t.filter q = [] := by
        rw [List.filter_eq_nil_iff]
        intro x hx hqx
        exact hna (by rw [← hid x hqx]; exact List.mem_map_of_mem _ hx)
      rw [ht]
    · have hqa : q a = false := by
        cases hqa : q a
        · rfl
        · exfalso
          exact hna (by rw [hid a hqa]; exact List.mem_map_of_mem _ hrt)
      rw [List.filter_cons_of_neg (by simp [hqa])]
      exact ih hnt hrt

theorem find?_append_last (l : List TaskRow) (r : TaskRow) (q : TaskRow → Bool)
    (h : ∀ x ∈ l, q x = false) (hr : q r = true) :
    (l ++ [r]).find? q = some r := by
  induction l with
  | nil => simp [List.find?, hr]
  | cons a t ih =>
    have hqa : ¬(q a = true) := by simp [h a (List.mem_cons_self a t)]
    rw [List.cons_append, List.find?_cons_of_neg _ hqa]
    exact ih (fun x hx => h x (List.mem_cons_of_mem a hx))

theorem find?_eq_some_of_mem_nodup (l : List TaskRow)
    (hn : (l.map fun r => r.id).Nodup) (r : TaskRow) (hr : r ∈ l) (tid : Nat)
    (htid : r.id = tid) :
    l.find? (fun x => x.id == tid) = some r := by
  induction l with
  | nil => cases hr
  | cons a t ih =>
    rw [List.map_cons, List.nodup_cons] at hn
    obtain ⟨hna, hnt⟩ := hn
    rcases List.mem_cons.mp hr with rfl | hrt
    · have hq : ((fun x : TaskRow => x.id == tid) r) = true := by simp [htid]
      rw [List.find?_cons_of_pos (p := fun x : TaskRow => x.id == tid) _ hq]
    · have hne : ¬(((fun x : TaskRow => x.id == tid) a) = true) := by
        simp only [beq_iff_eq]
        intro hq
        apply hna
        rw [hq, ← htid]
        exact List.mem_map_of_mem _ hrt
      rw [List.find?_cons_of_neg (p := fun x : TaskRow => x.id == tid) _ hne]
      exact ih hnt hrt

theorem find?_eq_none_of_all (l : List TaskRow) (tid : Nat)
    (h : ∀ x ∈ l, x.id ≠ tid) :
    l.find? (fun x => x.id == tid) = none := by
  rw [List.find?_eq_none]
  intro x hx
  simp [h x hx]

theorem rowsToTasks_forall2 {rs : List TaskRow} {ts : List Task}
    (h : rowsToTasks rs = .ok ts) :
    List.Forall₂ (fun r t => rowToTask r = .ok t) rs ts := by
  induction rs generalizing ts with
  | nil =>
    unfold rowsToTasks at h
    cases h
    exact List.Forall₂.nil
  | cons r rs ih =>
    unfold rowsToTasks at h
    cases hr : rowToTask r with
    | error e => rw [hr] at h; cases h
    | ok t =>
      rw [hr] at h
      cases hrs : rowsToTasks rs with
      | error e => rw [hrs] at h; cases h
      | ok ts2 =>
        rw [hrs] at h
        cases h
        exact List.Forall₂.cons hr (ih hrs)

theorem rowsToTasks_ok_of_all (rs : List TaskRow)
    (h : ∀ r ∈ rs, ∃ t, rowToTask r = .ok t) :
    ∃ ts, rowsToTasks rs = .ok ts := by
  induction rs with
  | nil => exact ⟨[], rfl⟩
  | cons r rs ih =>
    obtain ⟨t, ht⟩ := h r (List.mem_cons_self r rs)
    obtain ⟨ts, hts⟩ := ih (fun x hx => h x (List.mem_cons_of_mem r hx))
    refine ⟨t :: ts, ?_⟩
    unfold rowsToTasks
    rw [ht, hts]

theorem forall2_mem_right_exists {α β : Type} {R : α → β → Prop} {l : List α} {l2 : List β}
    (h : List.Forall₂ R l l2) (b : β) (hb : b ∈ l2) : ∃ a ∈ l, R a b := by
  induction h with
  | nil => cases hb
  | cons hR hF ih =>
    rcases List.mem_cons.mp hb with rfl | hb2
    · exact ⟨_, List.mem_cons_self _ _, hR⟩
    · obtain ⟨a, ha, hab⟩ := ih hb2
      exact ⟨a, List.mem_cons_of_mem _ ha, hab⟩

theorem forall2_mem_left_exists {α β : Type} {R : α → β → Prop} {l : List α} {l2 : List β}
    (h : List.Forall₂ R l l2) (a : α) (ha : a ∈ l) : ∃ b ∈ l2, R a b := by
  induction h with
  | nil => cases ha
  | cons hR hF ih =>
    rcases List.mem_cons.mp ha with rfl | ha2
    · exact ⟨_, List.mem_cons_self _ _, hR⟩
    · obtain ⟨b, hb, hab⟩ := ih ha2
      exact ⟨b, List.mem_cons_of_mem _ hb, hab⟩

/-! ### Task construction and row conversion lemmas -/

theorem mkTask_pending (i : Option Nat) (de : String) (c : Datetime)
    (hde : (pyStrip de).isEmpty = false) :
    mkTask i de .pending c none = .ok ⟨i, pyStrip de, .pending, c, none⟩ := by
  simp [mkTask, hde]

theorem mkTask_completed (i : Option Nat) (de : String) (c cc : Datetime)
    (hde : (pyStrip de).isEmpty = false) :
    mkTask i de .completed c (some cc) = .ok ⟨i, pyStrip de, .completed, c, some cc⟩ := by
  simp [mkTask, hde]

theorem mkTask_ok_inv {i : Option Nat} {de : String} {st : TaskStatus}
    {c : Datetime} {comp : Option Datetime} {t : Task}
    (h : mkTask i de st c comp = .ok t) :
    t = ⟨i, pyStrip de, st, c, comp⟩ := by
  unfold mkTask at h
  split at h
  · cases h
  · split at h
    · cases h
    · split at h
      · cases h
      · cases h
        rfl

theorem rowWF_parts {n : Nat} {r : TaskRow} (h : rowWF n r = true) :
    r.id < n ∧ rowCheck r = true ∧ tsWF r.created_at = true ∧
      (∀ cs, r.completed_at = some cs → tsWF cs = true) ∧
      pyStrip r.description = r.description := by
  unfold rowWF at h
  simp only [Bool.and_eq_true, decide_eq_true_eq, beq_iff_eq] at h
  obtain ⟨⟨⟨⟨h1, h2⟩, h3⟩, h4⟩, h5⟩ := h
  refine ⟨h1, h2, h3, ?_, h5⟩
  intro cs hcs
  rw [hcs] at h4
  simpa [Option.all] using h4

theorem rowCheck_parts {r : TaskRow} (h : rowCheck r = true) :
    0 < r.description.length ∧
      ((r.status = .pending ∧ r.completed_at = none) ∨
        (r.status = .completed ∧ ∃ cs, r.completed_at = some cs)) := by
  unfold rowCheck at h
  simp only [Bool.and_eq_true, decide_eq_true_eq] at h
  obtain ⟨h1, h2⟩ := h
  refine ⟨h1, ?_⟩
  split at h2
  · next heq1 heq2 => exact Or.inl ⟨heq1, heq2⟩
  · next cs heq1 heq2 => exact Or.inr ⟨heq1, cs, heq2⟩
  · cases h2

theorem wf_parts {s : Store} (h : s.wf = true) :
    (s.rows.map fun r => r.id).Nodup ∧ ∀ r ∈ s.rows, rowWF s.nextId r = true := by
  unfold Store.wf at h
  simp only [Bool.and_eq_true, decide_eq_true_eq, List.all_eq_true] at h
  exact h

theorem desc_strip_ne_empty {n : Nat} {r : TaskRow} (h : rowWF n r = true) :
    (pyStrip r.description).isEmpty = false := by
  obtain ⟨-, hc, -, -, hstrip⟩ := rowWF_parts h
  obtain ⟨hlen, -⟩ := rowCheck_parts hc
  rw [hstrip]
  exact (isEmpty_false_iff_length_pos _).mpr hlen

theorem rowToTask_wf {n : Nat} {r : TaskRow} (h : rowWF n r = true) :
    ∃ cd : Datetime, cd.validB = true ∧ r.created_at = fmtTs cd ∧
      ((r.status = .pending ∧ r.completed_at = none ∧
          rowToTask r = .ok ⟨some r.id, r.description, .pending, cd, none⟩) ∨
        (∃ cs dc, r.status = .completed ∧ r.completed_at = some cs ∧
          cs = fmtTs dc ∧ dc.validB = true ∧
          rowToTask r = .ok ⟨some r.id, r.description, .completed, cd, some dc⟩)) := by
  obtain ⟨-, hcheck, hts, hcomp, hstrip⟩ := rowWF_parts h
  obtain ⟨cd, hcdv, hceq, hparse, -, -⟩ := tsWF_parseDb hts
  refine ⟨cd, hcdv, hceq, ?_⟩
  obtain ⟨hlen, hstat⟩ := rowCheck_parts hcheck
  have hdesc : (pyStrip r.description).isEmpty = false := desc_strip_ne_empty h
  rcases hstat with ⟨hp, hnone⟩ | ⟨hcpl, cs, hsome⟩
  · left
    refine ⟨hp, hnone, ?_⟩
    simp only [rowToTask, hparse, hnone, hp]
    rw [mkTask_pending _ _ _ hdesc, hstrip]
  · right
    have htsc : tsWF cs = true := hcomp cs hsome
    obtain ⟨dc, hdcv, hcseq, hparsec, -, -⟩ := tsWF_parseDb htsc
    refine ⟨cs, dc, hcpl, hsome, hcseq, hdcv, ?_⟩
    have hcsE : cs.isEmpty = false := by rw [hcseq]; exact fmtTs_ne_empty dc
    simp only [rowToTask, hparse, hsome, hcsE, Bool.false_eq_true, if_false, hparsec, hcpl]
    rw [mkTask_completed _ _ _ _ hdesc, hstrip]

theorem rowToTask_ok_fields {r : TaskRow} {t : Task} (h : rowToTask r = .ok t) :
    t.id = some r.id ∧ t.status = r.status ∧ t.description = pyStrip r.description ∧
      parseDbTimestamp r.created_at = some t.created_at := by
  unfold rowToTask at h
  split at h
  · cases h
  · next created hparse =>
    split at h
    · rw [mkTask_ok_inv h]
      exact ⟨rfl, rfl, rfl, hparse⟩
    · split at h
      · rw [mkTask_ok_inv h]
        exact ⟨rfl, rfl, rfl, hparse⟩
      · split at h
        · cases h
        · rw [mkTask_ok_inv h]
          exact ⟨rfl, rfl, rfl, hparse⟩

/-! ### Computation lemmas for the repository operations -/

theorem create_task_ok (s : Store) (d : String) (now : Datetime)
    (hwf : s.wf = true) (hd : (pyStrip d).isEmpty = false) (hnow : now.validB = true) :
    create_task s (some d) now false =
      (⟨s.rows ++ [⟨s.nextId, pyStrip d, .pending, fmtTs now, none⟩], s.nextId + 1⟩,
       .ok ⟨some s.nextId, pyStrip d, .pending, now, none⟩) := by
  have hdE : d.isEmpty = false := by
    cases hde : d.isEmpty
    · rfl
    · exact absurd (pyStrip_of_empty d hde) (by simp [hd])
  have hrc : rowCheck ⟨s.nextId, pyStrip d, .pending, fmtTs now, none⟩ = true := by
    unfold rowCheck
    simp [(isEmpty_false_iff_length_pos (pyStrip d)).mp hd]
  have hfind : ∀ x ∈ s.rows, ((fun r : TaskRow => r.id == s.nextId) x) = false := by
    intro x hx
    obtain ⟨hlt, -, -, -, -⟩ := rowWF_parts ((wf_parts hwf).2 x hx)
    simp only [beq_eq_false_iff_ne, ne_eq]
    omega
  have hmk := mkTask_pending (some s.nextId) (pyStrip d) now (by rw [pyStrip_idem]; exact hd)
  rw [pyStrip_idem] at hmk
  simp only [create_task, hdE, hd, Bool.or_self, Bool.false_eq_true, if_false,
    Store.sqlInsert, hrc, if_true]
  rw [find?_append_last s.rows _ _ hfind (by simp)]
  simp only [fromiso_fmt now hnow, hmk]

theorem mark_count_one (s : Store) (tid : Nat) (hwf : s.wf = true)
    (r : TaskRow) (hr : r ∈ s.rows) (hid : r.id = tid) (hst : r.status = .pending) :
    s.rows.filter (matchPending tid) = [r] := by
  apply filter_eq_singleton_of_nodup s.rows (wf_parts hwf).1 r hr
  · simp [matchPending, hid, hst]
  · intro x hx
    unfold matchPending at hx
    simp only [Bool.and_eq_true, beq_iff_eq] at hx
    rw [hx.1, hid]

theorem map_id_of_eq {l : List TaskRow} {f : TaskRow → TaskRow}
    (h : ∀ x ∈ l, f x = x) : l.map f = l := by
  induction l with
  | nil => rfl
  | cons a t ih =>
    rw [List.map_cons, h a (List.mem_cons_self a t), ih (fun x hx => h x (List.mem_cons_of_mem a hx))]

theorem filter_all_of_eq {l : List TaskRow} {q : TaskRow → Bool}
    (h : ∀ x ∈ l, q x = true) : l.filter q = l := by
  induction l with
  | nil => rfl
  | cons a t ih =>
    rw [List.filter_cons_of_pos (h a (List.mem_cons_self a t)),
        ih (fun x hx => h x (List.mem_cons_of_mem a hx))]

theorem mark_completed_first (s : Store) (tid : Nat) (now : Datetime) (hwf : s.wf = true)
    (r : TaskRow) (hr : r ∈ s.rows) (hid : r.id = tid) (hst : r.status = .pending) :
    mark_completed s tid now false =
      (⟨s.rows.map (fun x => if matchPending tid x then
        { x with status := .completed, completed_at := some (fmtTs now) } else x),
        s.nextId⟩, .ok true) := by
  unfold mark_completed Store.sqlUpdateCompleted
  rw [mark_count_one s tid hwf r hr hid hst]
  simp

theorem mark_completed_nomatch (s : Store) (tid : Nat) (now : Datetime)
    (h : ∀ x ∈ s.rows, ¬(x.id = tid ∧ x.status = .pending)) :
    mark_completed s tid now false = (s, .ok false) := by
  have hq : ∀ x ∈ s.rows, matchPending tid x = false := by
    intro x hx
    unfold matchPending
    cases hxx : (x.id == tid && x.status == TaskStatus.pending)
    · rfl
    · exfalso
      simp only [Bool.and_eq_true, beq_iff_eq] at hxx
      exact h x hx hxx
  have hfil : s.rows.filter (matchPending tid) = [] := by
    rw [List.filter_eq_nil_iff]
    intro x hx
    simp [hq x hx]
  have hmap : s.rows.map (fun x => if matchPending tid x then
      { x with status := .completed, completed_at := some (fmtTs now) } else x) = s.rows := by
    apply map_id_of_eq
    intro x hx
    rw [hq x hx]
    simp
  unfold mark_completed Store.sqlUpdateCompleted
  rw [hfil, hmap]
  simp

theorem delete_count_one (s : Store) (tid : Nat) (hwf : s.wf = true)
    (r : TaskRow) (hr : r ∈ s.rows) (hid : r.id = tid) :
    s.rows.filter (fun x => x.id == tid) = [r] := by
  apply filter_eq_singleton_of_nodup s.rows (wf_parts hwf).1 r hr
  · simp [hid]
  · intro x hx
    simp only [beq_iff_eq] at hx
    rw [hx, hid]

theorem delete_task_first (s : Store) (tid : Nat) (hwf : s.wf = true)
    (r : TaskRow) (hr : r ∈ s.rows) (hid : r.id = tid) :
    delete_task s tid false =
      (⟨s.rows.filter (fun x => !(x.id == tid)), s.nextId⟩, .ok true) := by
  unfold delete_task Store.sqlDelete
  rw [delete_count_one s tid hwf r hr hid]
  simp

theorem delete_task_nomatch (s : Store) (tid : Nat)
    (h : ∀ x ∈ s.rows, x.id ≠ tid) :
    delete_task s tid false = (s, .ok false) := by
  have hfil : s.rows.filter (fun x => x.id == tid) = [] := by
    rw [List.filter_eq_nil_iff]
    intro x hx
    simp [h x hx]
  have hkeep : s.rows.filter (fun x => !(x.id == tid)) = s.rows := by
    apply filter_all_of_eq
    intro x hx
    simp [h x hx]
  unfold delete_task Store.sqlDelete
  rw [hfil, hkeep]
  simp

/-! ### Preservation of store well-formedness -/

theorem rowWF_mono {n m : Nat} {r : TaskRow} (h : rowWF n r = true) (hnm : n ≤ m) :
    rowWF m r = true := by
  unfold rowWF at h ⊢
  simp only [Bool.and_eq_true, decide_eq_true_eq] at h ⊢
  obtain ⟨⟨⟨⟨h1, h2⟩, h3⟩, h4⟩, h5⟩ := h
  exact ⟨⟨⟨⟨by omega, h2⟩, h3⟩, h4⟩, h5⟩

theorem wf_insert (s : Store) (d : String) (now : Datetime) (hwf : s.wf = true)
    (hd : (pyStrip d).isEmpty = false) (hnow : now.validB = true) :
    Store.wf ⟨s.rows ++ [⟨s.nextId, pyStrip d, .pending, fmtTs now, none⟩], s.nextId + 1⟩
      = true := by
  obtain ⟨hnodup, hrows⟩ := wf_parts hwf
  unfold Store.wf
  simp only [Bool.and_eq_true, decide_eq_true_eq, List.all_eq_true]
  constructor
  · rw [List.map_append, List.nodup_append]
    refine ⟨hnodup, by simp, ?_⟩
    intro a ha hmem
    obtain ⟨x, hx, hxa⟩ := List.mem_map.mp ha
    obtain ⟨hlt, -, -, -, -⟩ := rowWF_parts (hrows x hx)
    simp only [List.map_cons, List.map_nil, List.mem_singleton] at hmem
    omega
  · intro r hr
    rcases List.mem_append.mp hr with h1 | h2
    · exact rowWF_mono (hrows r h1) (by omega)
    · rw [List.mem_singleton] at h2
      subst h2
      unfold rowWF
      simp only [Bool.and_eq_true, decide_eq_true_eq, beq_iff_eq]
      refine ⟨⟨⟨⟨by omega, ?_⟩, tsWF_fmt now hnow⟩, by rfl⟩, pyStrip_idem d⟩
      unfold rowCheck
      simp [(isEmpty_false_iff_length_pos (pyStrip d)).mp hd]

theorem wf_create (s : Store) (desc : Option String) (now : Datetime) (fault : Bool)
    (hwf : s.wf = true) (hnow : now.validB = true) :
    (create_task s desc now fault).1.wf = true := by
  match desc with
  | none => simpa [create_task] using hwf
  | some d =>
    cases hg : (d.isEmpty || (pyStrip d).isEmpty)
    · have hd : (pyStrip d).isEmpty = false := (Bool.or_eq_false_iff.mp hg).2
      cases fault
      · rw [create_task_ok s d now hwf hd hnow]
        exact wf_insert s d now hwf hd hnow
      · simp only [create_task, hg, Bool.false_eq_true, if_false, if_true]
        simpa using hwf
    · simp only [create_task, hg, if_true]
      simpa using hwf

theorem map_ids_update (l : List TaskRow) (tid : Nat) (now : String) :
    (l.map (fun x => if matchPending tid x then
      { x with status := .completed, completed_at := some now } else x)).map
        (fun r => r.id) = l.map (fun r => r.id) := by
  induction l with
  | nil => rfl
  | cons a t ih =>
    simp only [List.map_cons, ih]
    congr 1
    cases h : matchPending tid a
    · simp [h]
    · simp [h]

theorem wf_mark (s : Store) (tid : Nat) (now : Datetime) (fault : Bool)
    (hwf : s.wf = true) (hnow : now.validB = true) :
    (mark_completed s tid now fault).1.wf = true := by
  cases fault
  · obtain ⟨hnodup, hrows⟩ := wf_parts hwf
    unfold mark_completed Store.sqlUpdateCompleted
    simp only [Bool.false_eq_true, if_false]
    unfold Store.wf
    simp only [Bool.and_eq_true, decide_eq_true_eq, List.all_eq_true]
    constructor
    · rw [map_ids_update]
      exact hnodup
    · intro r hr
      obtain ⟨y, hy, hyr⟩ := List.mem_map.mp hr
      have hywf := hrows y hy
      cases hm : matchPending tid y
      · rw [hm] at hyr
        simp only [Bool.false_eq_true, if_false] at hyr
        subst hyr
        exact hywf
      · rw [hm] at hyr
        simp only [if_true] at hyr
        subst hyr
        obtain ⟨hlt, hcheck, hts, -, hstrip⟩ := rowWF_parts hywf
        obtain ⟨hlen, -⟩ := rowCheck_parts hcheck
        unfold rowWF
        simp only [Bool.and_eq_true, decide_eq_true_eq, beq_iff_eq]
        refine ⟨⟨⟨⟨hlt, ?_⟩, hts⟩, ?_⟩, hstrip⟩
        · unfold rowCheck
          simpa using hlen
        · simpa [Option.all] using tsWF_fmt now hnow
  · simpa [mark_completed] using hwf

theorem wf_delete (s : Store) (tid : Nat) (fault : Bool) (hwf : s.wf = true) :
    (delete_task s tid fault).1.wf = true := by
  cases fault
  · obtain ⟨hnodup, hrows⟩ := wf_parts hwf
    unfold delete_task Store.sqlDelete
    simp only [Bool.false_eq_true, if_false]
    unfold Store.wf
    simp only [Bool.and_eq_true, decide_eq_true_eq, List.all_eq_true]
    constructor
    · exact hnodup.sublist ((List.filter_sublist s.rows).map (fun r => r.id))
    · intro r hr
      exact hrows r (List.mem_of_mem_filter hr)
  · simpa [delete_task] using hwf

theorem reachable_wf {s : Store} (h : Reachable s) : s.wf = true := by
  induction h with
  | init => rfl
  | create s desc now fault hs hv ih => exact wf_create s desc now fault ih hv
  | mark s tid now fault hs hv ih => exact wf_mark s tid now fault ih hv
  | delete s tid fault hs ih => exact wf_delete s tid fault ih

/-! ### Ordering instances and query lemmas -/

instance : IsTotal TaskRow RowLE where
  total a b := by
    unfold RowLE
    rcases lt_trichotomy a.created_at b.created_at with h | h | h
    · exact Or.inr (Or.inl h)
    · rcases Nat.le_total b.id a.id with h2 | h2
      · exact Or.inl (Or.inr ⟨h.symm, h2⟩)
      · exact Or.inr (Or.inr ⟨h, h2⟩)
    · exact Or.inl (Or.inl h)

instance : IsTrans TaskRow RowLE where
  trans a b c hab hbc := by
    unfold RowLE at hab hbc ⊢
    rcases hab with h1 | ⟨h1, h1b⟩ <;> rcases hbc with h2 | ⟨h2, h2b⟩
    · exact Or.inl (lt_trans h2 h1)
    · exact Or.inl (h2 ▸ h1)
    · exact Or.inl (h1 ▸ h2)
    · exact Or.inr ⟨h2.trans h1, Nat.le_trans h2b h1b⟩

instance : IsTotal TaskRow RowLEc where
  total a b := by
    unfold RowLEc
    rcases lt_trichotomy (a.completed_at.getD "") (b.completed_at.getD "") with h | h | h
    · exact Or.inr (Or.inl h)
    · rcases Nat.le_total b.id a.id with h2 | h2
      · exact Or.inl (Or.inr ⟨h.symm, h2⟩)
      · exact Or.inr (Or.inr ⟨h, h2⟩)
    · exact Or.inl (Or.inl h)

instance : IsTrans TaskRow RowLEc where
  trans a b c hab hbc := by
    unfold RowLEc at hab hbc ⊢
    rcases hab with h1 | ⟨h1, h1b⟩ <;> rcases hbc with h2 | ⟨h2, h2b⟩
    · exact Or.inl (lt_trans h2 h1)
    · exact Or.inl (h2 ▸ h1)
    · exact Or.inl (h1 ▸ h2)
    · exact Or.inr ⟨h2.trans h1, Nat.le_trans h2b h1b⟩

theorem selectAllRows_mem (s : Store) (r : TaskRow) :
    r ∈ s.selectAllRows ↔ r ∈ s.rows :=
  (List.perm_insertionSort RowLE s.rows).mem_iff

theorem selectPendingRows_mem (s : Store) (r : TaskRow) :
    r ∈ s.selectPendingRows ↔ r ∈ s.rows ∧ r.status = .pending := by
  unfold Store.selectPendingRows
  rw [(List.perm_insertionSort RowLE _).mem_iff, List.mem_filter]
  simp

theorem selectCompletedRows_mem (s : Store) (r : TaskRow) :
    r ∈ s.selectCompletedRows ↔ r ∈ s.rows ∧ r.status = .completed := by
  unfold Store.selectCompletedRows
  rw [(List.perm_insertionSort RowLEc _).mem_iff, List.mem_filter]
  simp

theorem selectAllRows_sorted (s : Store) : List.Sorted RowLE s.selectAllRows :=
  List.sorted_insertionSort RowLE s.rows

theorem selectPendingRows_sorted (s : Store) : List.Sorted RowLE s.selectPendingRows :=
  List.sorted_insertionSort RowLE _

theorem selectCompletedRows_sorted (s : Store) : List.Sorted RowLEc s.selectCompletedRows :=
  List.sorted_insertionSort RowLEc _

theorem rowsToTasks_ok_of_wf (s : Store) (hwf : s.wf = true) (l : List TaskRow)
    (hl : ∀ r ∈ l, r ∈ s.rows) :
    ∃ ts, rowsToTasks l = .ok ts ∧
      List.Forall₂ (fun r t => rowToTask r = .ok t) l ts := by
  have hmem : ∀ r ∈ l, ∃ t, rowToTask r = .ok t := by
    intro r hr
    obtain ⟨cd, -, -, hbranch⟩ := rowToTask_wf ((wf_parts hwf).2 r (hl r hr))
    rcases hbranch with ⟨-, -, hok⟩ | ⟨cs, dc, -, -, -, -, hok⟩
    · exact ⟨_, hok⟩
    · exact ⟨_, hok⟩
  obtain ⟨ts, hts⟩ := rowsToTasks_ok_of_all _ hmem
  exact ⟨ts, hts, rowsToTasks_forall2 hts⟩

theorem pairwise_transfer {α β : Type} {R : α → β → Prop} {P : α → α → Prop}
    {Q : β → β → Prop} :
    ∀ {l : List α} {l2 : List β}, List.Forall₂ R l l2 → List.Pairwise P l →
      (∀ a b a2 b2, a ∈ l → b ∈ l → R a a2 → R b b2 → P a b → Q a2 b2) →
      List.Pairwise Q l2 := by
  intro l l2 h
  induction h with
  | nil => intro _ _; exact List.Pairwise.nil
  | @cons a b l1 l3 hR hF ih =>
    intro hp himp
    rw [List.pairwise_cons] at hp
    obtain ⟨ha, hp1⟩ := hp
    refine List.Pairwise.cons ?_ (ih hp1 (fun x y x2 y2 hxl hyl =>
      himp x y x2 y2 (List.mem_cons_of_mem _ hxl) (List.mem_cons_of_mem _ hyl)))
    intro y hy
    obtain ⟨x, hx, hxy⟩ := forall2_mem_right_exists hF y hy
    exact himp a x b y (List.mem_cons_self _ _) (List.mem_cons_of_mem _ hx) hR hxy (ha x hx)

theorem row_canonical {s : Store} (hwf : s.wf = true) {r : TaskRow} (hr : r ∈ s.rows)
    {t : Task} (ht : rowToTask r = .ok t) :
    t.created_at.validB = true ∧ r.created_at = fmtTs t.created_at := by
  obtain ⟨-, -, hts, -, -⟩ := rowWF_parts ((wf_parts hwf).2 r hr)
  obtain ⟨cd, hcdv, hceq, hparse, -, -⟩ := tsWF_parseDb hts
  obtain ⟨-, -, -, hparse2⟩ := rowToTask_ok_fields ht
  rw [hparse] at hparse2
  cases hparse2
  exact ⟨hcdv, hceq⟩

theorem tasks_sorted_created (s : Store) (hwf : s.wf = true) {l : List TaskRow}
    {ts : List Task} (hsub : ∀ r ∈ l, r ∈ s.rows) (hsort : List.Sorted RowLE l)
    (hF : List.Forall₂ (fun r t => rowToTask r = .ok t) l ts) :
    List.Pairwise (fun t u => u.created_at.val ≤ t.created_at.val) ts := by
  apply pairwise_transfer hF hsort
  intro a b a2 b2 hal hbl hRa hRb hP
  obtain ⟨hva, hea⟩ := row_canonical hwf (hsub a hal) hRa
  obtain ⟨hvb, heb⟩ := row_canonical hwf (hsub b hbl) hRb
  unfold RowLE at hP
  rcases hP with h | ⟨h, -⟩
  · rw [hea, heb] at h
    exact le_of_lt ((fmt_lt_iff _ _ hvb hva).mp h)
  · rw [hea, heb] at h
    rw [fmt_inj _ _ hvb hva h]

theorem row_canonical_completed {s : Store} (hwf : s.wf = true) {r : TaskRow}
    (hr : r ∈ s.rows) (hst : r.status = .completed) {t : Task}
    (ht : rowToTask r = .ok t) :
    ∃ dc, t.completed_at = some dc ∧ dc.validB = true ∧
      r.completed_at = some (fmtTs dc) := by
  obtain ⟨cd, hcdv, hceq, hbranch⟩ := rowToTask_wf ((wf_parts hwf).2 r hr)
  rcases hbranch with ⟨hp, -, -⟩ | ⟨cs, dc, -, hsome, hcseq, hdcv, hok⟩
  · rw [hp] at hst
    cases hst
  · rw [hok] at ht
    cases ht
    exact ⟨dc, rfl, hdcv, by rw [hsome, hcseq]⟩

theorem tasks_sorted_completed (s : Store) (hwf : s.wf = true) {ts : List Task}
    (hF : List.Forall₂ (fun r t => rowToTask r = .ok t) s.selectCompletedRows ts) :
    List.Pairwise (fun t u => ((u.completed_at.map Datetime.val).getD 0) ≤
      ((t.completed_at.map Datetime.val).getD 0)) ts := by
  apply pairwise_transfer hF (selectCompletedRows_sorted s)
  intro a b a2 b2 hal hbl hRa hRb hP
  obtain ⟨hamem, hastat⟩ := (selectCompletedRows_mem s a).mp hal
  obtain ⟨hbmem, hbstat⟩ := (selectCompletedRows_mem s b).mp hbl
  obtain ⟨da, ha2, hva, hca⟩ := row_canonical_completed hwf hamem hastat hRa
  obtain ⟨db, hb2, hvb, hcb⟩ := row_canonical_completed hwf hbmem hbstat hRb
  rw [ha2, hb2]
  simp only [Option.map_some', Option.getD_some]
  unfold RowLEc at hP
  rw [hca, hcb] at hP
  simp only [Option.getD_some] at hP
  rcases hP with h | ⟨h, -⟩
  · exact le_of_lt ((fmt_lt_iff _ _ hvb hva).mp h)
  · rw [fmt_inj _ _ hvb hva h]

/-! ### Query result membership lemmas -/

theorem get_all_tasks_mem {s : Store} {ts : List Task}
    (h : get_all_tasks s false = .ok ts) (t : Task) :
    t ∈ ts ↔ ∃ r ∈ s.rows, rowToTask r = .ok t := by
  unfold get_all_tasks at h
  simp only [Bool.false_eq_true, if_false] at h
  have hF := rowsToTasks_forall2 h
  constructor
  · intro ht
    obtain ⟨r, hr, hrt⟩ := forall2_mem_right_exists hF t ht
    exact ⟨r, (selectAllRows_mem s r).mp hr, hrt⟩
  · rintro ⟨r, hr, hrt⟩
    obtain ⟨t2, ht2, hrt2⟩ := forall2_mem_left_exists hF r ((selectAllRows_mem s r).mpr hr)
    rw [hrt] at hrt2
    cases hrt2
    exact ht2

theorem get_pending_tasks_mem {s : Store} {ts : List Task}
    (h : get_pending_tasks s false = .ok ts) (t : Task) :
    t ∈ ts ↔ ∃ r ∈ s.rows, r.status = .pending ∧ rowToTask r = .ok t := by
  unfold get_pending_tasks at h
  simp only [Bool.false_eq_true, if_false] at h
  have hF := rowsToTasks_forall2 h
  constructor
  · intro ht
    obtain ⟨r, hr, hrt⟩ := forall2_mem_right_exists hF t ht
    obtain ⟨hmem, hstat⟩ := (selectPendingRows_mem s r).mp hr
    exact ⟨r, hmem, hstat, hrt⟩
  · rintro ⟨r, hr, hstat, hrt⟩
    obtain ⟨t2, ht2, hrt2⟩ :=
      forall2_mem_left_exists hF r ((selectPendingRows_mem s r).mpr ⟨hr, hstat⟩)
    rw [hrt] at hrt2
    cases hrt2
    exact ht2

theorem get_completed_tasks_mem {s : Store} {ts : List Task}
    (h : get_completed_tasks s false = .ok ts) (t : Task) :
    t ∈ ts ↔ ∃ r ∈ s.rows, r.status = .completed ∧ rowToTask r = .ok t := by
  unfold get_completed_tasks at h
  simp only [Bool.false_eq_true, if_false] at h
  have hF := rowsToTasks_forall2 h
  constructor
  · intro ht
    obtain ⟨r, hr, hrt⟩ := forall2_mem_right_exists hF t ht
    obtain ⟨hmem, hstat⟩ := (selectCompletedRows_mem s r).mp hr
    exact ⟨r, hmem, hstat, hrt⟩
  · rintro ⟨r, hr, hstat, hrt⟩
    obtain ⟨t2, ht2, hrt2⟩ :=
      forall2_mem_left_exists hF r ((selectCompletedRows_mem s r).mpr ⟨hr, hstat⟩)
    rw [hrt] at hrt2
    cases hrt2
    exact ht2

theorem get_task_by_id_inv {s : Store} {tid : Nat} {t : Task}
    (h : get_task_by_id s tid false = .ok (some t)) :
    ∃ r ∈ s.rows, rowToTask r = .ok t ∧ r.id = tid := by
  unfold get_task_by_id at h
  simp only [Bool.false_eq_true, if_false] at h
  split at h
  · cases h
  · next r hfind =>
    split at h
    · cases h
    · next t2 hok =>
      cases h
      refine ⟨r, List.mem_of_find?_eq_some hfind, hok, ?_⟩
      have := List.find?_some hfind
      simpa using this

/-- Pending rows of a well-formed row satisfy the completion iff. -/
theorem wf_row_iff {n : Nat} {r : TaskRow} (h : rowWF n r = true) :
    r.status = .pending ↔ r.completed_at = none := by
  obtain ⟨-, hcheck, -, -, -⟩ := rowWF_parts h
  obtain ⟨-, hstat⟩ := rowCheck_parts hcheck
  rcases hstat with ⟨h1, h2⟩ | ⟨h1, cs, h2⟩
  · simp [h1, h2]
  · rw [h1, h2]
    constructor
    · intro hx
      cases hx
    · intro hx
      cases hx

/-- Tasks converted from a well-formed row satisfy the completion iff. -/
theorem wf_task_iff {n : Nat} {r : TaskRow} (h : rowWF n r = true) {t : Task}
    (ht : rowToTask r = .ok t) :
    t.status = .pending ↔ t.completed_at = none := by
  obtain ⟨cd, -, -, hbranch⟩ := rowToTask_wf h
  rcases hbranch with ⟨-, -, hok⟩ | ⟨cs, dc, -, -, -, -, hok⟩ <;> rw [hok] at ht <;> cases ht
  · simp
  · constructor
    · intro hx
      cases hx
    · intro hx
      cases hx

/-- C1: for every task record held in storage (any store reachable through
the repository operations) and for every Task returned by any repository
query, status = pending holds if and only if completed_at is null; and the
equivalence is enforced at storage level: a raw INSERT whose row violates
the valid_completion CHECK constraint is rejected by the engine with a
storage error and writes nothing. -/
theorem C1_invariant_pending_iff_completed_null :
    (∀ (s : Store) (de : String) (st : TaskStatus) (ca : String) (co : Option String),
      rowCheck ⟨s.nextId, de, st, ca, co⟩ = false →
        s.sqlInsert de st ca co = .error (.storage "CHECK constraint failed")) ∧
    (∀ s : Store, Reachable s →
      (∀ r ∈ s.rows, (r.status = .pending ↔ r.completed_at = none)) ∧
      (∀ ts, get_all_tasks s false = .ok ts →
        ∀ t ∈ ts, (t.status = .pending ↔ t.completed_at = none)) ∧
      (∀ ts, get_pending_tasks s false = .ok ts →
        ∀ t ∈ ts, (t.status = .pending ↔ t.completed_at = none)) ∧
      (∀ ts, get_completed_tasks s false = .ok ts →
        ∀ t ∈ ts, (t.status = .pending ↔ t.completed_at = none)) ∧
      (∀ (tid : Nat) (t : Task), get_task_by_id s tid false = .ok (some t) →
        (t.status = .pending ↔ t.completed_at = none))) := by
  constructor
  · intro s de st ca co hbad
    simp only [Store.sqlInsert, hbad, Bool.false_eq_true, if_false]
  · intro s hreach
    have hwf := reachable_wf hreach
    have hrows := (wf_parts hwf).2
    refine ⟨fun r hr => wf_row_iff (hrows r hr), ?_, ?_, ?_, ?_⟩
    · intro ts hts t ht
      obtain ⟨r, hr, hrt⟩ := (get_all_tasks_mem hts t).mp ht
      exact wf_task_iff (hrows r hr) hrt
    · intro ts hts t ht
      obtain ⟨r, hr, -, hrt⟩ := (get_pending_tasks_mem hts t).mp ht
      exact wf_task_iff (hrows r hr) hrt
    · intro ts hts t ht
      obtain ⟨r, hr, -, hrt⟩ := (get_completed_tasks_mem hts t).mp ht
      exact wf_task_iff (hrows r hr) hrt
    · intro tid t ht
      obtain ⟨r, hr, hrt, -⟩ := get_task_by_id_inv ht
      exact wf_task_iff (hrows r hr) hrt

/-- A concrete reachable store used by the C1 witness: create one task,
create a second, complete the second. -/
def wStoreR : Store :=
  (mark_completed
    (create_task
      (create_task Store.empty (some "Buy milk") ⟨2025, 1, 2, 3, 4, 5⟩ false).1
      (some " walk dog ") ⟨2025, 1, 2, 3, 4, 6⟩ false).1
    2 ⟨2025, 1, 2, 3, 4, 7⟩ false).1

theorem C1_invariant_witness :
    (∀ r ∈ wStoreR.rows, (r.status = .pending ↔ r.completed_at = none)) ∧
    rowCheck ⟨wStoreR.nextId, "x", .pending, "2025-01-02 03:04:05", some "2025-01-02 03:04:06"⟩
      = false ∧
    wStoreR.sqlInsert "x" .pending "2025-01-02 03:04:05" (some "2025-01-02 03:04:06") =
      .error (.storage "CHECK constraint failed") := by
  have hreach : Reachable wStoreR :=
    Reachable.mark _ 2 ⟨2025, 1, 2, 3, 4, 7⟩ false
      (Reachable.create _ (some " walk dog ") ⟨2025, 1, 2, 3, 4, 6⟩ false
        (Reachable.create Store.empty (some "Buy milk") ⟨2025, 1, 2, 3, 4, 5⟩ false
          Reachable.init (by decide)) (by decide)) (by decide)
  refine ⟨((C1_invariant_pending_iff_completed_null.2 wStoreR hreach).1), by decide, ?_⟩
  exact C1_invariant_pending_iff_completed_null.1 wStoreR "x" .pending
    "2025-01-02 03:04:05" (some "2025-01-02 03:04:06") (by decide)

/-- C2: mark_completed performs one conditional atomic update matching
id AND status = pending, setting status = completed and completed_at = now.
On a store holding a pending task with the given id, the first call returns
true, the updated row carries the completion timestamp of that call, rows
with other ids are untouched, and every later call on the same id returns
false and leaves the store (hence the recorded completed_at) unchanged.
When no pending row matches the id (id absent or task already completed),
the call returns false without error and changes nothing. -/
theorem C2_mark_completed (s : Store) (tid : Nat) (now1 : Datetime)
    (hwf : s.wf = true) (r : TaskRow) (hr : r ∈ s.rows) (hid : r.id = tid)
    (hst : r.status = .pending) :
    (mark_completed s tid now1 false).2 = .ok true ∧
    ({ r with status := .completed, completed_at := some (fmtTs now1) } ∈
      (mark_completed s tid now1 false).1.rows) ∧
    (∀ x ∈ s.rows, x.id ≠ tid → x ∈ (mark_completed s tid now1 false).1.rows) ∧
    (∀ now2 : Datetime, mark_completed (mark_completed s tid now1 false).1 tid now2 false =
      ((mark_completed s tid now1 false).1, .ok false)) ∧
    (∀ (s0 : Store) (tid0 : Nat) (now0 : Datetime),
      (∀ x ∈ s0.rows, ¬(x.id = tid0 ∧ x.status = .pending)) →
      mark_completed s0 tid0 now0 false = (s0, .ok false)) := by
  have hfirst := mark_completed_first s tid now1 hwf r hr hid hst
  have hmatch : matchPending tid r = true := by simp [matchPending, hid, hst]
  refine ⟨by rw [hfirst], ?_, ?_, ?_, ?_⟩
  · rw [hfirst]
    have hmem := List.mem_map_of_mem (fun x => if matchPending tid x then
      { x with status := .completed, completed_at := some (fmtTs now1) } else x) hr
    simp only [hmatch, if_true] at hmem
    exact hmem
  · intro x hx hne
    rw [hfirst]
    have hnm : matchPending tid x = false := by
      unfold matchPending
      simp [hne]
    have hmem := List.mem_map_of_mem (fun y => if matchPending tid y then
      { y with status := .completed, completed_at := some (fmtTs now1) } else y) hx
    simp only [hnm, Bool.false_eq_true, if_false] at hmem
    exact hmem
  · intro now2
    rw [hfirst]
    apply mark_completed_nomatch
    rintro x hx ⟨hxid, hxst⟩
    obtain ⟨y, hy, hyx⟩ := List.mem_map.mp hx
    cases hm : matchPending tid y
    · rw [hm] at hyx
      simp only [Bool.false_eq_true, if_false] at hyx
      subst hyx
      have hcontra : matchPending tid y = true := by simp [matchPending, hxid, hxst]
      rw [hcontra] at hm
      cases hm
    · rw [hm] at hyx
      simp only [if_true] at hyx
      rw [← hyx] at hxst
      cases hxst
  · intro s0 tid0 now0 h0
    exact mark_completed_nomatch s0 tid0 now0 h0

/-- A concrete well-formed store with one pending task for the C2, C5 and
C7 witnesses. -/
def wStore : Store :=
  ⟨[⟨1, "Buy milk", .pending, fmtTs ⟨2025, 1, 2, 3, 4, 5⟩, none⟩,
    ⟨2, "walk dog", .completed, fmtTs ⟨2025, 1, 2, 3, 4, 5⟩,
      some (fmtTs ⟨2025, 1, 2, 3, 4, 9⟩)⟩], 3⟩

theorem C2_mark_completed_witness :
    (mark_completed wStore 1 ⟨2025, 1, 2, 3, 4, 8⟩ false).2 = .ok true ∧
    (∀ now2 : Datetime,
      mark_completed (mark_completed wStore 1 ⟨2025, 1, 2, 3, 4, 8⟩ false).1 1 now2 false =
        ((mark_completed wStore 1 ⟨2025, 1, 2, 3, 4, 8⟩ false).1, .ok false)) := by
  have h := C2_mark_completed wStore 1 ⟨2025, 1, 2, 3, 4, 8⟩ (by decide)
    ⟨1, "Buy milk", .pending, fmtTs ⟨2025, 1, 2, 3, 4, 5⟩, none⟩ (by decide) rfl rfl
  exact ⟨h.1, h.2.2.2.1⟩

/-- C3: on a description that is non-empty after trimming, create_task
inserts exactly one row, with status pending and completed_at null, and
returns a Task carrying the storage-assigned id (the AUTOINCREMENT
counter) and the creation timestamp obtained by parsing the value the
storage engine recorded (fromisoformat of the stored created_at column),
with status pending and completed_at null. -/
theorem C3_create_task (s : Store) (d : String) (now : Datetime)
    (hwf : s.wf = true) (hd : (pyStrip d).isEmpty = false) (hnow : now.validB = true) :
    ∃ (row : TaskRow) (t : Task),
      create_task s (some d) now false = (⟨s.rows ++ [row], s.nextId + 1⟩, .ok t) ∧
      row.status = .pending ∧ row.completed_at = none ∧ row.created_at = fmtTs now ∧
      row.id = s.nextId ∧ row.description = pyStrip d ∧
      t.id = some s.nextId ∧ t.status = .pending ∧ t.completed_at = none ∧
      fromiso row.created_at = some t.created_at := by
  refine ⟨⟨s.nextId, pyStrip d, .pending, fmtTs now, none⟩,
    ⟨some s.nextId, pyStrip d, .pending, now, none⟩,
    create_task_ok s d now hwf hd hnow, rfl, rfl, rfl, rfl, rfl, rfl, rfl, rfl, ?_⟩
  exact fromiso_fmt now hnow

theorem C3_create_task_witness :
    ∃ (row : TaskRow) (t : Task),
      create_task wStore (some " read a book ") ⟨2025, 1, 2, 3, 5, 0⟩ false =
        (⟨wStore.rows ++ [row], wStore.nextId + 1⟩, .ok t) ∧
      row.status = .pending ∧ row.completed_at = none ∧
      row.created_at = fmtTs ⟨2025, 1, 2, 3, 5, 0⟩ ∧
      row.id = wStore.nextId ∧ row.description = pyStrip " read a book " ∧
      t.id = some wStore.nextId ∧ t.status = .pending ∧ t.completed_at = none ∧
      fromiso row.created_at = some t.created_at :=
  C3_create_task wStore " read a book " ⟨2025, 1, 2, 3, 5, 0⟩ (by decide) (by decide) (by decide)

/-- C4: on a description that is null, empty, or whitespace-only,
create_task raises the validation error before any storage write (even
when the storage layer would fault): the store is returned unchanged, so
get_all_tasks afterwards returns exactly what it returned before, with the
same count. -/
theorem C4_create_task_invalid (s : Store) (desc : Option String) (now : Datetime)
    (fault : Bool)
    (hbad : desc = none ∨ ∃ d, desc = some d ∧ (pyStrip d).isEmpty = true) :
    create_task s desc now fault = (s, .error (.validation "Description cannot be empty")) ∧
    get_all_tasks (create_task s desc now fault).1 false = get_all_tasks s false ∧
    (∀ ts, get_all_tasks s false = .ok ts →
      ∃ ts2, get_all_tasks (create_task s desc now fault).1 false = .ok ts2 ∧
        ts2.length = ts.length) := by
  have hmain : create_task s desc now fault =
      (s, .error (.validation "Description cannot be empty")) := by
    rcases hbad with rfl | ⟨d, rfl, hds⟩
    · rfl
    · simp [create_task, hds]
  refine ⟨hmain, by rw [hmain], ?_⟩
  intro ts hts
  rw [hmain]
  exact ⟨ts, hts, rfl⟩

theorem C4_create_task_invalid_witness :
    (create_task wStore (some "   ") ⟨2025, 1, 2, 3, 5, 0⟩ false =
      (wStore, .error (.validation "Description cannot be empty"))) ∧
    (create_task wStore none ⟨2025, 1, 2, 3, 5, 0⟩ false =
      (wStore, .error (.validation "Description cannot be empty"))) ∧
    (create_task wStore (some "") ⟨2025, 1, 2, 3, 5, 0⟩ false =
      (wStore, .error (.validation "Description cannot be empty"))) ∧
    (create_task wStore (some "\u00A0\u2003\u00A0") ⟨2025, 1, 2, 3, 5, 0⟩ false =
      (wStore, .error (.validation "Description cannot be empty"))) :=
  ⟨(C4_create_task_invalid wStore (some "   ") ⟨2025, 1, 2, 3, 5, 0⟩ false
      (Or.inr ⟨"   ", rfl, by decide⟩)).1,
   (C4_create_task_invalid wStore none ⟨2025, 1, 2, 3, 5, 0⟩ false (Or.inl rfl)).1,
   (C4_create_task_invalid wStore (some "") ⟨2025, 1, 2, 3, 5, 0⟩ false
      (Or.inr ⟨"", rfl, by decide⟩)).1,
   (C4_create_task_invalid wStore (some "\u00A0\u2003\u00A0") ⟨2025, 1, 2, 3, 5, 0⟩ false
      (Or.inr ⟨"\u00A0\u2003\u00A0", rfl, by decide⟩)).1⟩

/-- C5: delete_task removes the matching row regardless of its status (no
status hypothesis is required), returning true iff exactly one row was
removed: on a store containing the id the first call returns true and
keeps exactly the rows with other ids; a second call on the same id
returns false and changes nothing; after the deletion the task is absent
from get_all_tasks, get_pending_tasks, get_completed_tasks and
get_task_by_id; and on a store without the id the call returns false. -/
theorem C5_delete_task (s : Store) (tid : Nat) (hwf : s.wf = true)
    (r : TaskRow) (hr : r ∈ s.rows) (hid : r.id = tid) :
    (delete_task s tid false).2 = .ok true ∧
    (∀ x, x ∈ (delete_task s tid false).1.rows ↔ (x ∈ s.rows ∧ x.id ≠ tid)) ∧
    (delete_task (delete_task s tid false).1 tid false =
      ((delete_task s tid false).1, .ok false)) ∧
    get_task_by_id (delete_task s tid false).1 tid false = .ok none ∧
    (∀ ts, get_all_tasks (delete_task s tid false).1 false = .ok ts →
      ∀ t ∈ ts, t.id ≠ some tid) ∧
    (∀ ts, get_pending_tasks (delete_task s tid false).1 false = .ok ts →
      ∀ t ∈ ts, t.id ≠ some tid) ∧
    (∀ ts, get_completed_tasks (delete_task s tid false).1 false = .ok ts →
      ∀ t ∈ ts, t.id ≠ some tid) ∧
    (∀ (s0 : Store) (tid0 : Nat), (∀ x ∈ s0.rows, x.id ≠ tid0) →
      delete_task s0 tid0 false = (s0, .ok false)) := by
  have hfirst := delete_task_first s tid hwf r hr hid
  have hmem : ∀ x, x ∈ (delete_task s tid false).1.rows ↔ (x ∈ s.rows ∧ x.id ≠ tid) := by
    intro x
    rw [hfirst]
    show x ∈ s.rows.filter (fun y => !(y.id == tid)) ↔ _
    rw [List.mem_filter]
    simp
  have habs : ∀ x ∈ (delete_task s tid false).1.rows, x.id ≠ tid := by
    intro x hx
    exact ((hmem x).mp hx).2
  have habs_task : ∀ {t : Task} {x : TaskRow}, x ∈ (delete_task s tid false).1.rows →
      rowToTask x = .ok t → t.id ≠ some tid := by
    intro t x hx hxt hcontra
    obtain ⟨hidt, -, -, -⟩ := rowToTask_ok_fields hxt
    rw [hidt] at hcontra
    exact habs x hx (by simpa using hcontra)
  refine ⟨by rw [hfirst], hmem, ?_, ?_, ?_, ?_, ?_, ?_⟩
  · exact delete_task_nomatch _ tid habs
  · unfold get_task_by_id
    simp only [Bool.false_eq_true, if_false]
    rw [find?_eq_none_of_all _ tid habs]
  · intro ts hts t ht
    obtain ⟨x, hx, hxt⟩ := (get_all_tasks_mem hts t).mp ht
    exact habs_task hx hxt
  · intro ts hts t ht
    obtain ⟨x, hx, -, hxt⟩ := (get_pending_tasks_mem hts t).mp ht
    exact habs_task hx hxt
  · intro ts hts t ht
    obtain ⟨x, hx, -, hxt⟩ := (get_completed_tasks_mem hts t).mp ht
    exact habs_task hx hxt
  · intro s0 tid0 h0
    exact delete_task_nomatch s0 tid0 h0

theorem C5_delete_task_witness :
    (delete_task wStore 2 false).2 = .ok true ∧
    (delete_task (delete_task wStore 2 false).1 2 false =
      ((delete_task wStore 2 false).1, .ok false)) ∧
    get_task_by_id (delete_task wStore 2 false).1 2 false = .ok none := by
  have h := C5_delete_task wStore 2 (by decide)
    ⟨2, "walk dog", .completed, fmtTs ⟨2025, 1, 2, 3, 4, 5⟩,
      some (fmtTs ⟨2025, 1, 2, 3, 4, 9⟩)⟩ (by decide) rfl
  exact ⟨h.1, h.2.2.1, h.2.2.2.1⟩

/-- C7: at any store state, the tasks returned by get_pending_tasks and
get_completed_tasks partition the tasks returned by get_all_tasks: their
union equals it as a set, and the two are disjoint. -/
theorem C7_partition (s : Store) (_hwf : s.wf = true)
    (A P C : List Task)
    (hA : get_all_tasks s false = .ok A)
    (hP : get_pending_tasks s false = .ok P)
    (hC : get_completed_tasks s false = .ok C) :
    (∀ t, t ∈ A ↔ (t ∈ P ∨ t ∈ C)) ∧ (∀ t, ¬(t ∈ P ∧ t ∈ C)) := by
  constructor
  · intro t
    rw [get_all_tasks_mem hA, get_pending_tasks_mem hP, get_completed_tasks_mem hC]
    constructor
    · rintro ⟨r, hr, hrt⟩
      cases hst : r.status
      · exact Or.inl ⟨r, hr, hst, hrt⟩
      · exact Or.inr ⟨r, hr, hst, hrt⟩
    · rintro (⟨r, hr, -, hrt⟩ | ⟨r, hr, -, hrt⟩)
      · exact ⟨r, hr, hrt⟩
      · exact ⟨r, hr, hrt⟩
  · rintro t ⟨htP, htC⟩
    obtain ⟨r, hr, hst, hrt⟩ := (get_pending_tasks_mem hP t).mp htP
    obtain ⟨r2, hr2, hst2, hrt2⟩ := (get_completed_tasks_mem hC t).mp htC
    obtain ⟨-, hstat, -, -⟩ := rowToTask_ok_fields hrt
    obtain ⟨-, hstat2, -, -⟩ := rowToTask_ok_fields hrt2
    rw [hst] at hstat
    rw [hst2] at hstat2
    rw [hstat] at hstat2
    cases hstat2

theorem C7_partition_witness :
    ∃ A P C : List Task,
      get_all_tasks wStore false = .ok A ∧
      get_pending_tasks wStore false = .ok P ∧
      get_completed_tasks wStore false = .ok C ∧
      (∀ t, t ∈ A ↔ (t ∈ P ∨ t ∈ C)) ∧ (∀ t, ¬(t ∈ P ∧ t ∈ C)) := by
  obtain ⟨A, hA, -⟩ := rowsToTasks_ok_of_wf wStore (by decide) wStore.selectAllRows
    (fun r hr => (selectAllRows_mem wStore r).mp hr)
  obtain ⟨P, hP, -⟩ := rowsToTasks_ok_of_wf wStore (by decide) wStore.selectPendingRows
    (fun r hr => ((selectPendingRows_mem wStore r).mp hr).1)
  obtain ⟨C, hC, -⟩ := rowsToTasks_ok_of_wf wStore (by decide) wStore.selectCompletedRows
    (fun r hr => ((selectCompletedRows_mem wStore r).mp hr).1)
  have hA2 : get_all_tasks wStore false = .ok A := by
    simpa [get_all_tasks] using hA
  have hP2 : get_pending_tasks wStore false = .ok P := by
    simpa [get_pending_tasks] using hP
  have hC2 : get_completed_tasks wStore false = .ok C := by
    simpa [get_completed_tasks] using hC
  exact ⟨A, P, C, hA2, hP2, hC2, C7_partition wStore (by decide) A P C hA2 hP2 hC2⟩

/-- C8: with a storage fault injected, every repository operation surfaces
a storage error (the RuntimeError wrapping the sqlite3.Error), which is a
different condition from the not-found outcome (an ok false or ok none
return) and from the validation error; and the three mutating operations
return the store unchanged (the in-flight transaction is rolled back
before propagating). -/
theorem C8_storage_errors :
    (∀ (s : Store) (d : String) (now : Datetime), (pyStrip d).isEmpty = false →
      create_task s (some d) now true = (s, .error (.storage "Failed to create task"))) ∧
    (∀ (s : Store) (tid : Nat) (now : Datetime),
      mark_completed s tid now true = (s, .error (.storage "Failed to mark task completed"))) ∧
    (∀ (s : Store) (tid : Nat),
      delete_task s tid true = (s, .error (.storage "Failed to delete task"))) ∧
    (∀ s : Store, get_all_tasks s true = .error (.storage "Failed to retrieve all tasks")) ∧
    (∀ s : Store, get_pending_tasks s true =
      .error (.storage "Failed to retrieve pending tasks")) ∧
    (∀ s : Store, get_completed_tasks s true =
      .error (.storage "Failed to retrieve completed tasks")) ∧
    (∀ (s : Store) (tid : Nat), get_task_by_id s tid true =
      .error (.storage "Failed to retrieve task by ID")) ∧
    (∀ m v : String, RepoError.storage m ≠ RepoError.validation v) ∧
    (∀ (m : String) (b : Bool),
      (Except.error (RepoError.storage m) : Except RepoError Bool) ≠ .ok b) ∧
    (∀ (m : String) (o : Option Task),
      (Except.error (RepoError.storage m) : Except RepoError (Option Task)) ≠ .ok o) := by
  refine ⟨?_, fun s tid now => rfl, fun s tid => rfl, fun s => rfl, fun s => rfl,
    fun s => rfl, fun s tid => rfl, ?_, ?_, ?_⟩
  · intro s d now hd
    have hdE : d.isEmpty = false := by
      cases hde : d.isEmpty
      · rfl
      · exact absurd (pyStrip_of_empty d hde) (by simp [hd])
    simp [create_task, hdE, hd]
  · intro m v h
    cases h
  · intro m b h
    cases h
  · intro m o h
    cases h

theorem C8_storage_errors_witness :
    create_task wStore (some "Buy milk") ⟨2025, 1, 2, 3, 4, 5⟩ true =
      (wStore, .error (.storage "Failed to create task")) :=
  C8_storage_errors.1 wStore "Buy milk" ⟨2025, 1, 2, 3, 4, 5⟩ (by decide)

/-- Converting a freshly inserted row back through _row_to_task yields the
same Task that create_task built through fromisoformat: the stored
CURRENT_TIMESTAMP string contains neither T nor a trailing Z, so the
strptime branch fires and parses to the same datetime. -/
theorem rowToTask_new (i : Nat) (d : String) (dt : Datetime)
    (hd : (pyStrip d).isEmpty = false) (hv : dt.validB = true) :
    rowToTask ⟨i, pyStrip d, .pending, fmtTs dt, none⟩ =
      .ok ⟨some i, pyStrip d, .pending, dt, none⟩ := by
  unfold rowToTask
  simp only [parseDbTimestamp_fmt dt hv]
  rw [mkTask_pending _ _ _ (by rw [pyStrip_idem]; exact hd), pyStrip_idem]

/-- C10: round-trip at the public interface: after t = create_task(d), the
separate _row_to_task path of get_task_by_id returns a Task equal to t:
same storage-assigned id, same trimmed description, status pending, the
same created_at datetime, and null completed_at. -/
theorem C10_roundtrip (s : Store) (d : String) (now : Datetime)
    (hwf : s.wf = true) (hd : (pyStrip d).isEmpty = false) (hnow : now.validB = true) :
    ∃ (s1 : Store) (t : Task),
      create_task s (some d) now false = (s1, .ok t) ∧
      t.id = some s.nextId ∧ t.description = pyStrip d ∧ t.status = .pending ∧
      t.created_at = now ∧ t.completed_at = none ∧
      get_task_by_id s1 s.nextId false = .ok (some t) := by
  refine ⟨_, _, create_task_ok s d now hwf hd hnow, rfl, rfl, rfl, rfl, rfl, ?_⟩
  have hfind2 : ∀ x ∈ s.rows, ((fun r : TaskRow => r.id == s.nextId) x) = false := by
    intro x hx
    obtain ⟨hlt, -, -, -, -⟩ := rowWF_parts ((wf_parts hwf).2 x hx)
    simp only [beq_eq_false_iff_ne, ne_eq]
    omega
  unfold get_task_by_id
  simp only [Bool.false_eq_true, if_false]
  rw [find?_append_last s.rows _ _ hfind2 (by simp)]
  simp only [rowToTask_new s.nextId d now hd hnow]

theorem C10_roundtrip_witness :
    ∃ (s1 : Store) (t : Task),
      create_task wStore (some " read a book ") ⟨2025, 1, 2, 3, 5, 0⟩ false = (s1, .ok t) ∧
      t.id = some wStore.nextId ∧ t.description = pyStrip " read a book " ∧
      t.status = .pending ∧ t.created_at = ⟨2025, 1, 2, 3, 5, 0⟩ ∧ t.completed_at = none ∧
      get_task_by_id s1 wStore.nextId false = .ok (some t) :=
  C10_roundtrip wStore " read a book " ⟨2025, 1, 2, 3, 5, 0⟩ (by decide) (by decide) (by decide)

/-- A later row (larger id, chronologically no earlier timestamp) never
precedes an earlier one under the ORDER BY created_at DESC order. -/
theorem rowLE_false (a b : TaskRow) (da db : Datetime)
    (hca : a.created_at = fmtTs da) (hcb : b.created_at = fmtTs db)
    (hva : da.validB = true) (hvb : db.validB = true)
    (hval : da.val ≤ db.val) (hid : a.id < b.id) : ¬ RowLE a b := by
  unfold RowLE
  rw [hca, hcb]
  rintro (h | ⟨h, hle⟩)
  · have := (fmt_lt_iff db da hvb hva).mp h
    omega
  · omega

/-- C6: get_all_tasks and get_pending_tasks return tasks ordered by
created_at descending, get_completed_tasks returns tasks ordered by
completed_at descending, all three return the empty sequence on an empty
store, and for three tasks created in sequence A, B, C (ids assigned in
that order, timestamps nondecreasing) get_all_tasks returns [C, B, A]. -/
theorem C6_query_ordering :
    (∀ (s : Store), s.wf = true → ∀ ts, get_all_tasks s false = .ok ts →
      List.Pairwise (fun t u => u.created_at.val ≤ t.created_at.val) ts) ∧
    (∀ (s : Store), s.wf = true → ∀ ts, get_pending_tasks s false = .ok ts →
      List.Pairwise (fun t u => u.created_at.val ≤ t.created_at.val) ts) ∧
    (∀ (s : Store), s.wf = true → ∀ ts, get_completed_tasks s false = .ok ts →
      List.Pairwise (fun t u => ((u.completed_at.map Datetime.val).getD 0) ≤
        ((t.completed_at.map Datetime.val).getD 0)) ts) ∧
    (∀ s : Store, s.rows = [] → get_all_tasks s false = .ok [] ∧
      get_pending_tasks s false = .ok [] ∧ get_completed_tasks s false = .ok []) ∧
    (∀ (dA dB dC : Datetime) (a b c : String),
      dA.validB = true → dB.validB = true → dC.validB = true →
      dA.val ≤ dB.val → dB.val ≤ dC.val →
      (pyStrip a).isEmpty = false → (pyStrip b).isEmpty = false →
      (pyStrip c).isEmpty = false →
      ∃ (tA tB tC : Task) (s1 s2 s3 : Store),
        create_task Store.empty (some a) dA false = (s1, .ok tA) ∧
        create_task s1 (some b) dB false = (s2, .ok tB) ∧
        create_task s2 (some c) dC false = (s3, .ok tC) ∧
        get_all_tasks s3 false = .ok [tC, tB, tA]) := by
  refine ⟨?_, ?_, ?_, ?_, ?_⟩
  · intro s hwf ts hts
    unfold get_all_tasks at hts
    simp only [Bool.false_eq_true, if_false] at hts
    exact tasks_sorted_created s hwf (fun r hr => (selectAllRows_mem s r).mp hr)
      (selectAllRows_sorted s) (rowsToTasks_forall2 hts)
  · intro s hwf ts hts
    unfold get_pending_tasks at hts
    simp only [Bool.false_eq_true, if_false] at hts
    exact tasks_sorted_created s hwf (fun r hr => ((selectPendingRows_mem s r).mp hr).1)
      (selectPendingRows_sorted s) (rowsToTasks_forall2 hts)
  · intro s hwf ts hts
    unfold get_completed_tasks at hts
    simp only [Bool.false_eq_true, if_false] at hts
    exact tasks_sorted_completed s hwf (rowsToTasks_forall2 hts)
  · intro s hrows
    refine ⟨?_, ?_, ?_⟩ <;>
      simp [get_all_tasks, get_pending_tasks, get_completed_tasks, Store.selectAllRows,
        Store.selectPendingRows, Store.selectCompletedRows, hrows, rowsToTasks,
        List.insertionSort]
  · intro dA dB dC a b c hvA hvB hvC hAB hBC ha hb hc
    have h1 : create_task Store.empty (some a) dA false =
        (⟨[⟨1, pyStrip a, .pending, fmtTs dA, none⟩], 2⟩,
         .ok ⟨some 1, pyStrip a, .pending, dA, none⟩) := by
      rw [create_task_ok Store.empty a dA rfl ha hvA]
      rfl
    have hwf1 : (Store.mk [⟨1, pyStrip a, .pending, fmtTs dA, none⟩] 2).wf = true := by
      have h := wf_insert Store.empty a dA rfl ha hvA
      simpa [Store.empty] using h
    have h2 : create_task ⟨[⟨1, pyStrip a, .pending, fmtTs dA, none⟩], 2⟩ (some b) dB false =
        (⟨[⟨1, pyStrip a, .pending, fmtTs dA, none⟩,
           ⟨2, pyStrip b, .pending, fmtTs dB, none⟩], 3⟩,
         .ok ⟨some 2, pyStrip b, .pending, dB, none⟩) := by
      rw [create_task_ok _ b dB hwf1 hb hvB]
      rfl
    have hwf2 : (Store.mk [⟨1, pyStrip a, .pending, fmtTs dA, none⟩,
        ⟨2, pyStrip b, .pending, fmtTs dB, none⟩] 3).wf = true := by
      have h := wf_insert ⟨[⟨1, pyStrip a, .pending, fmtTs dA, none⟩], 2⟩ b dB hwf1 hb hvB
      simpa using h
    have h3 : create_task ⟨[⟨1, pyStrip a, .pending, fmtTs dA, none⟩,
        ⟨2, pyStrip b, .pending, fmtTs dB, none⟩], 3⟩ (some c) dC false =
        (⟨[⟨1, pyStrip a, .pending, fmtTs dA, none⟩,
           ⟨2, pyStrip b, .pending, fmtTs dB, none⟩,
           ⟨3, pyStrip c, .pending, fmtTs dC, none⟩], 4⟩,
         .ok ⟨some 3, pyStrip c, .pending, dC, none⟩) := by
      rw [create_task_ok _ c dC hwf2 hc hvC]
      rfl
    refine ⟨_, _, _, _, _, _, h1, h2, h3, ?_⟩
    have nBC : ¬ RowLE ⟨2, pyStrip b, .pending, fmtTs dB, none⟩
        ⟨3, pyStrip c, .pending, fmtTs dC, none⟩ :=
      rowLE_false _ _ dB dC rfl rfl hvB hvC hBC (by show (2:Nat) < 3; decide)
    have nAC : ¬ RowLE ⟨1, pyStrip a, .pending, fmtTs dA, none⟩
        ⟨3, pyStrip c, .pending, fmtTs dC, none⟩ :=
      rowLE_false _ _ dA dC rfl rfl hvA hvC (le_trans hAB hBC) (by show (1:Nat) < 3; decide)
    have nAB : ¬ RowLE ⟨1, pyStrip a, .pending, fmtTs dA, none⟩
        ⟨2, pyStrip b, .pending, fmtTs dB, none⟩ :=
      rowLE_false _ _ dA dB rfl rfl hvA hvB hAB (by show (1:Nat) < 2; decide)
    unfold get_all_tasks Store.selectAllRows
    simp only [Bool.false_eq_true, if_false]
    simp only [List.insertionSort, List.orderedInsert, if_neg nBC, if_neg nAC, if_neg nAB]
    simp only [rowsToTasks, rowToTask_new 1 a dA ha hvA, rowToTask_new 2 b dB hb hvB,
      rowToTask_new 3 c dC hc hvC]

theorem C6_query_ordering_witness :
    ∃ (tA tB tC : Task) (s1 s2 s3 : Store),
      create_task Store.empty (some "alpha") ⟨2025, 1, 2, 3, 4, 5⟩ false = (s1, .ok tA) ∧
      create_task s1 (some "beta") ⟨2025, 1, 2, 3, 4, 6⟩ false = (s2, .ok tB) ∧
      create_task s2 (some "gamma") ⟨2025, 1, 2, 3, 4, 6⟩ false = (s3, .ok tC) ∧
      get_all_tasks s3 false = .ok [tC, tB, tA] :=
  C6_query_ordering.2.2.2.2 ⟨2025, 1, 2, 3, 4, 5⟩ ⟨2025, 1, 2, 3, 4, 6⟩ ⟨2025, 1, 2, 3, 4, 6⟩
    "alpha" "beta" "gamma" (by decide) (by decide) (by decide) (by decide) (by decide)
    (by decide) (by decide) (by decide)

/-! ### Tie-break order lemmas -/

theorem select_nodup_all (s : Store) (hwf : s.wf = true) :
    (s.selectAllRows.map (fun r => r.id)).Nodup :=
  ((List.perm_insertionSort RowLE s.rows).map (fun r => r.id)).nodup_iff.mpr
    (wf_parts hwf).1

theorem select_nodup_pending (s : Store) (hwf : s.wf = true) :
    (s.selectPendingRows.map (fun r => r.id)).Nodup := by
  apply ((List.perm_insertionSort RowLE
    (s.rows.filter (fun r => r.status == .pending))).map (fun r => r.id)).nodup_iff.mpr
  exact (wf_parts hwf).1.sublist
    ((List.filter_sublist s.rows).map (fun r => r.id))

theorem select_nodup_completed (s : Store) (hwf : s.wf = true) :
    (s.selectCompletedRows.map (fun r => r.id)).Nodup := by
  apply ((List.perm_insertionSort RowLEc
    (s.rows.filter (fun r => r.status == .completed))).map (fun r => r.id)).nodup_iff.mpr
  exact (wf_parts hwf).1.sublist
    ((List.filter_sublist s.rows).map (fun r => r.id))

theorem tie_pairwise_created (s : Store) (hwf : s.wf = true) {l : List TaskRow}
    {ts : List Task} (hsub : ∀ r ∈ l, r ∈ s.rows)
    (hsort : List.Sorted RowLE l) (hnd : (l.map (fun r => r.id)).Nodup)
    (hF : List.Forall₂ (fun r t => rowToTask r = .ok t) l ts) :
    List.Pairwise (fun t u => t.created_at = u.created_at →
      ∃ i j, t.id = some i ∧ u.id = some j ∧ j < i) ts := by
  have hne : List.Pairwise (fun a b : TaskRow => a.id ≠ b.id) l := by
    rw [List.Nodup, List.pairwise_map] at hnd
    exact hnd
  apply pairwise_transfer hF (hsort.and hne)
  intro a b a2 b2 hal hbl hRa hRb hP htie
  obtain ⟨hPle, hPne⟩ := hP
  obtain ⟨hva, hea⟩ := row_canonical hwf (hsub a hal) hRa
  obtain ⟨hvb, heb⟩ := row_canonical hwf (hsub b hbl) hRb
  obtain ⟨hida, -, -, -⟩ := rowToTask_ok_fields hRa
  obtain ⟨hidb, -, -, -⟩ := rowToTask_ok_fields hRb
  refine ⟨a.id, b.id, hida, hidb, ?_⟩
  unfold RowLE at hPle
  rcases hPle with h | ⟨-, hle⟩
  · rw [hea, heb, htie] at h
    exact absurd h (lt_irrefl _)
  · omega

theorem tie_pairwise_completed (s : Store) (hwf : s.wf = true) {ts : List Task}
    (hF : List.Forall₂ (fun r t => rowToTask r = .ok t) s.selectCompletedRows ts) :
    List.Pairwise (fun t u => t.completed_at = u.completed_at →
      ∃ i j, t.id = some i ∧ u.id = some j ∧ j < i) ts := by
  have hnd := select_nodup_completed s hwf
  have hne : List.Pairwise (fun a b : TaskRow => a.id ≠ b.id) s.selectCompletedRows := by
    rw [List.Nodup, List.pairwise_map] at hnd
    exact hnd
  apply pairwise_transfer hF ((selectCompletedRows_sorted s).and hne)
  intro a b a2 b2 hal hbl hRa hRb hP htie
  obtain ⟨hPle, hPne⟩ := hP
  obtain ⟨hamem, hastat⟩ := (selectCompletedRows_mem s a).mp hal
  obtain ⟨hbmem, hbstat⟩ := (selectCompletedRows_mem s b).mp hbl
  obtain ⟨da, ha2, hva, hca⟩ := row_canonical_completed hwf hamem hastat hRa
  obtain ⟨db, hb2, hvb, hcb⟩ := row_canonical_completed hwf hbmem hbstat hRb
  obtain ⟨hida, -, -, -⟩ := rowToTask_ok_fields hRa
  obtain ⟨hidb, -, -, -⟩ := rowToTask_ok_fields hRb
  refine ⟨a.id, b.id, hida, hidb, ?_⟩
  unfold RowLEc at hPle
  rw [ha2, hb2] at htie
  cases htie
  rcases hPle with h | ⟨-, hle⟩
  · rw [hca, hcb] at h
    simp only [Option.getD_some] at h
    exact absurd h (lt_irrefl _)
  · omega

/-- C9: the query operations are pure functions of the store, so two runs
of the same query over the same store state return identical results; and
tasks sharing an identical creation (or completion) timestamp at the
storage resolution are returned in a fixed relative order, id descending
(the order of a backward scan of the covering index, deterministic per
connection). -/
theorem C9_tie_determinism :
    (∀ (s : Store) (fault : Bool),
      get_all_tasks s fault = get_all_tasks s fault ∧
      get_pending_tasks s fault = get_pending_tasks s fault ∧
      get_completed_tasks s fault = get_completed_tasks s fault) ∧
    (∀ (s : Store), s.wf = true → ∀ ts, get_all_tasks s false = .ok ts →
      List.Pairwise (fun t u => t.created_at = u.created_at →
        ∃ i j, t.id = some i ∧ u.id = some j ∧ j < i) ts) ∧
    (∀ (s : Store), s.wf = true → ∀ ts, get_pending_tasks s false = .ok ts →
      List.Pairwise (fun t u => t.created_at = u.created_at →
        ∃ i j, t.id = some i ∧ u.id = some j ∧ j < i) ts) ∧
    (∀ (s : Store), s.wf = true → ∀ ts, get_completed_tasks s false = .ok ts →
      List.Pairwise (fun t u => t.completed_at = u.completed_at →
        ∃ i j, t.id = some i ∧ u.id = some j ∧ j < i) ts) := by
  refine ⟨fun s fault => ⟨rfl, rfl, rfl⟩, ?_, ?_, ?_⟩
  · intro s hwf ts hts
    unfold get_all_tasks at hts
    simp only [Bool.false_eq_true, if_false] at hts
    exact tie_pairwise_created s hwf (fun r hr => (selectAllRows_mem s r).mp hr)
      (selectAllRows_sorted s) (select_nodup_all s hwf) (rowsToTasks_forall2 hts)
  · intro s hwf ts hts
    unfold get_pending_tasks at hts
    simp only [Bool.false_eq_true, if_false] at hts
    exact tie_pairwise_created s hwf (fun r hr => ((selectPendingRows_mem s r).mp hr).1)
      (selectPendingRows_sorted s) (select_nodup_pending s hwf) (rowsToTasks_forall2 hts)
  · intro s hwf ts hts
    unfold get_completed_tasks at hts
    simp only [Bool.false_eq_true, if_false] at hts
    exact tie_pairwise_completed s hwf (rowsToTasks_forall2 hts)

/-- A store with two pending tasks created within the same
CURRENT_TIMESTAMP second, for the C9 witness. -/
def wStoreTie : Store :=
  ⟨[⟨1, "first", .pending, fmtTs ⟨2025, 1, 2, 3, 4, 5⟩, none⟩,
    ⟨2, "second", .pending, fmtTs ⟨2025, 1, 2, 3, 4, 5⟩, none⟩], 3⟩

theorem C9_tie_determinism_witness :
    get_all_tasks wStoreTie false = get_all_tasks wStoreTie false ∧
    ∀ ts, get_all_tasks wStoreTie false = .ok ts →
      List.Pairwise (fun t u => t.created_at = u.created_at →
        ∃ i j, t.id = some i ∧ u.id = some j ∧ j < i) ts :=
  ⟨(C9_tie_determinism.1 wStoreTie false).1,
   C9_tie_determinism.2.1 wStoreTie (by decide)⟩

end Speckit

